import Mathlib

/-!
Shallow embedding of the Asura archive helpers in `rs.py`
(JericoFX/advance-manager).

Byte buffers are `List Nat` (each element a byte value), machine
integers are `Nat`/`Int` with explicit `% 2^32` where the code packs
32-bit fields, and fallible code returns `Except String`.  The zlib
compressor/decompressor used by the container codec is an external
collaborator and is passed in as a function pair.
-/

namespace RS

/-! ### Byte buffer primitives -/

/-- Read one byte; out-of-range reads yield 0 (only used in-bounds). -/
def getByte (l : List Nat) (i : Nat) : Nat := l.getD i 0

/-- Little-endian unsigned 32-bit read, as `struct.unpack_from("<I", l, i)`. -/
def readU32 (l : List Nat) (i : Nat) : Nat :=
  getByte l i + 256 * getByte l (i + 1) + 65536 * getByte l (i + 2) +
    16777216 * getByte l (i + 3)

/-- Little-endian encoding of a 32-bit value, as `struct.pack("<I", v)`. -/
def u32le (v : Nat) : List Nat :=
  [v % 256, v / 256 % 256, v / 65536 % 256, v / 16777216 % 256]

/-- In-place little-endian 32-bit store, as `struct.pack_into("<I", l, i, v)`
(bounds are checked by the callers, mirroring `struct.error`). -/
def writeU32 (l : List Nat) (i : Nat) (v : Nat) : List Nat :=
  (((l.set i (v % 256)).set (i + 1) (v / 256 % 256)).set
      (i + 2) (v / 65536 % 256)).set (i + 3) (v / 16777216 % 256)

/-- Python `buf[a:b] = r` slice assignment on a `bytearray`
(start/stop clamped, replaced range spliced out). -/
def splice (l : List Nat) (a b : Nat) (r : List Nat) : List Nat :=
  l.take a ++ r ++ l.drop (max a b)

/-! ### Container signatures (`ASURA_MAGIC`, `ASURA_ZLB_MAGIC`, `ASURA_ZBB_MAGIC`) -/

def asuraMagic : List Nat := [65, 115, 117, 114, 97, 32, 32, 32]

def asuraZlbMagic : List Nat := [65, 115, 117, 114, 97, 90, 108, 98]

def asuraZbbMagic : List Nat := [65, 115, 117, 114, 97, 90, 98, 98]

/-- Wrapper metadata dictionary returned by `_unwrap_asura_container`:
`{"kind": "raw"}`, `{"kind": "zlb", "unknown": u, "expected_size": e}` or
`{"kind": "zbb", "chunk_sizes": l, "total_size": t}`. -/
inductive Wrapper where
  | raw : Wrapper
  | zlb (unknown expected_size : Nat) : Wrapper
  | zbb (chunk_sizes : List Nat) (total_size : Nat) : Wrapper
deriving DecidableEq, Repr

/-- The `"kind"` field of a wrapper dictionary. -/
def Wrapper.kind : Wrapper → String
  | .raw => "raw"
  | .zlb _ _ => "zlb"
  | .zbb _ _ => "zbb"

/-! ### `_unwrap_asura_container` -/

/-- The AsuraZbb sub-chunk loop of `_unwrap_asura_container` (rs.py lines
292-313): `cursor` walks `data`, `output` accumulates decompressed bytes and
`sizes` the per-chunk decompressed lengths; `total` is the `total_size`
header field.  `dec` models `zlib.decompress` (`none` models `zlib.error`). -/
def zbbLoop (dec : List Nat → Option (List Nat)) (data : List Nat)
    (cursor : Nat) (output sizes : List Nat) (total : Nat) :
    Except String (List Nat × List Nat) :=
  if h : cursor + 8 ≤ data.length then
    let cc := readU32 data cursor
    let cs := readU32 data (cursor + 4)
    if hcc : cc = 0 then .ok (output, sizes)
    else
      let chunkPayload := (data.drop (cursor + 8)).take cc
      if chunkPayload.length ≠ cc then .error "truncated AsuraZbb chunk payload"
      else
        match dec chunkPayload with
        | none => .error "failed to decompress AsuraZbb chunk"
        | some chunkData =>
          if cs ≠ 0 ∧ chunkData.length ≠ cs then
            .error "decompressed chunk size does not match the value stored in the header"
          else
            let output2 := output ++ chunkData
            let sizes2 := sizes ++ [chunkData.length]
            if total ≠ 0 ∧ total ≤ output2.length then .ok (output2, sizes2)
            else zbbLoop dec data (cursor + 8 + cc) output2 sizes2 total
  else .ok (output, sizes)
termination_by data.length - cursor
decreasing_by simp_wf; omega

/-- `_unwrap_asura_container` (rs.py lines 252-326). -/
def asuraUnwrap (dec : List Nat → Option (List Nat)) (data : List Nat) :
    Except String (List Nat × Wrapper) :=
  if data.take 8 = asuraMagic then .ok (data, .raw)
  else if data.take 8 = asuraZlbMagic then
    if data.length < 20 then .error "truncated AsuraZlb header"
    else
      let unknown := readU32 data 8
      let compressedSize := readU32 data 12
      let expected := readU32 data 16
      let payload0 := data.drop 20
      let payload :=
        if compressedSize ≠ 0 ∧ compressedSize ≤ payload0.length then
          payload0.take compressedSize
        else payload0
      match dec payload with
      | none => .error "failed to decompress AsuraZlb archive"
      | some uncompressed =>
        let expected2 :=
          if expected ≠ 0 ∧ uncompressed.length ≠ expected then uncompressed.length
          else expected
        .ok (uncompressed, .zlb unknown expected2)
  else if data.take 8 = asuraZbbMagic then
    if data.length < 16 then .error "truncated AsuraZbb header"
    else
      let total := readU32 data 12
      match zbbLoop dec data 16 [] [] total with
      | .error e => .error e
      | .ok (output, sizes) =>
        let total2 :=
          if total ≠ 0 ∧ output.length ≠ total then output.length else total
        .ok (output, .zbb sizes total2)
  else .error "unsupported Asura container wrapper; try running the QuickBMS script first"

/-! ### `_wrap_asura_container` -/

/-- The AsuraZbb re-chunking loop of `_wrap_asura_container` (rs.py lines
348-364), returning the encoded sub-chunk stream and `total_compressed`.
`remaining` is the still-unconsumed suffix of the payload and `dlen` the full
payload length (Python reads `len(data)` of the whole buffer).  When called
from `asuraWrap`, `remaining ≠ []` forces `dlen ≥ 1` and hence a positive
chunk size; the `max 1` keeps the recursion total outside that region (where
the Python loop would not advance at all). -/
def zbbWrapLoop (comp : List Nat → List Nat) (sizes : List Nat)
    (dflt dlen idx : Nat) (remaining : List Nat) : List Nat × Nat :=
  if hrem : remaining = [] then ([], 0)
  else
    let hint0 := sizes.getD idx dflt
    let hint1 := if hint0 = 0 then (if dflt = 0 then dlen else dflt) else hint0
    let hint := max 1 hint1
    let chunk := remaining.take hint
    let c := comp chunk
    let rest := zbbWrapLoop comp sizes dflt dlen (idx + 1) (remaining.drop hint)
    (u32le c.length ++ u32le chunk.length ++ c ++ rest.1, c.length + rest.2)
termination_by remaining.length
decreasing_by
  simp_wf
  have hpos : 0 < remaining.length := List.length_pos.mpr hrem
  omega

/-- `_wrap_asura_container` (rs.py lines 329-369).  `comp` models
`zlib.compress`. -/
def asuraWrap (comp : List Nat → List Nat) (data : List Nat) (w : Wrapper) :
    List Nat :=
  match w with
  | .raw => data
  | .zlb unknown _ =>
    let compressed := comp data
    asuraZlbMagic ++ u32le unknown ++ u32le compressed.length ++
      u32le data.length ++ compressed
  | .zbb chunkSizes _ =>
    let sizes := if chunkSizes = [] then [data.length] else chunkSizes
    let dflt := sizes.getLastD 0
    let stream := zbbWrapLoop comp sizes dflt data.length 0 data
    asuraZbbMagic ++ u32le stream.2 ++ u32le data.length ++ stream.1

/-! ### Entry model

Entries are the dictionaries produced by `_normalise_entries` (RSFL) and
`_parse_rscf_entries` (RSCF).  Fields that the replacement engine reads
unguarded are plain; `chunk_offset` and `header_offset`, which
`_apply_replacements` explicitly tests against `None`, are `Option`. -/

inductive Layout where
  | rsfl : Layout
  | rscf : Layout
deriving DecidableEq, Repr

structure Entry where
  relative_path : String
  offset : Int
  size : Int
  layout : Layout
  raw_offset : Int := 0
  unk : Int := 0
  table_offset : Int := 0
  offset_anchor : Int := 0
  chunk_offset : Option Int := none
  chunk_size : Int := 0
  header_offset : Option Int := none
  header_data_span : Int := 0
deriving DecidableEq, Repr

/-! ### `_resolve_entry_offset` and `_normalise_entries` (RSFL load) -/

/-- `_resolve_entry_offset` (rs.py lines 619-627): translate the table
`raw_offset` into an absolute position.  The first candidate base is the
chunk size value, the second the chunk offset. -/
def resolve_entry_offset (raw_offset size data_length rsfl_offset
    rsfl_chunk_size : Int) : Except String Int :=
  let first := raw_offset + rsfl_chunk_size
  let chosen := if first + size > data_length then raw_offset + rsfl_offset else first
  if chosen + size > data_length then
    .error "entry points outside of archive bounds"
  else .ok chosen

/-- The offset/anchor computation of `_normalise_entries` (rs.py lines
637-643): `offset_anchor = absolute_offset - raw_offset`. -/
def normalise_entry_offset (raw_offset size data_length rsfl_offset
    rsfl_chunk_size : Int) : Except String (Int × Int) :=
  match resolve_entry_offset raw_offset size data_length rsfl_offset
      rsfl_chunk_size with
  | .error e => .error e
  | .ok o => .ok (o, o - raw_offset)

/-! ### `_parse_rscf_entries` payload-offset resolution -/

/-- `_register_candidate` (rs.py lines 569-571): append if not present. -/
def registerCandidate (l : List Int) (v : Int) : List Int :=
  if v ∈ l then l else l ++ [v]

/-- The candidate list built by `_parse_rscf_entries` (rs.py lines 567-579):
`string_end + data_offset`, then `string_end + (data_offset & 0x00FFFFFF)`
when the mask changes the value, then `chunk_end - data_span`. -/
def rscfCandidateOffsets (string_end : Int) (data_offset : Nat)
    (chunk_end : Int) (data_span : Nat) : List Int :=
  let l0 := registerCandidate [] (string_end + data_offset)
  let masked := data_offset % 16777216
  let l1 := if masked ≠ data_offset then registerCandidate l0 (string_end + masked)
    else l0
  registerCandidate l1 (chunk_end - data_span)

/-- The per-candidate admissibility test of the selection loop
(rs.py lines 583-591). -/
def rscfCandidateOk (string_end chunk_end data_length : Int) (data_span : Nat)
    (c : Int) : Bool :=
  decide (¬ c < string_end) && decide (¬ c + (data_span : Int) > chunk_end) &&
    decide (¬ c + (data_span : Int) > data_length)

/-- The payload-offset selection of `_parse_rscf_entries`
(rs.py lines 581-594). -/
def parse_rscf_payload_offset (data_length string_end chunk_end : Int)
    (data_offset data_span : Nat) : Except String Int :=
  match (rscfCandidateOffsets string_end data_offset chunk_end data_span).find?
      (rscfCandidateOk string_end chunk_end data_length data_span) with
  | some c => .ok c
  | none => .error "RSCF payload exceeds chunk bounds"

/-! ### `_apply_replacements` -/

/-- Replacement lookup: `resolved_replacements.get(rel_path)`.  The mapping is
an insertion-ordered association list with distinct keys (a Python dict whose
values already passed `_normalise_replacement_payloads`). -/
def lookupReplacement (repl : List (String × List Nat)) (p : String) :
    Option (List Nat) :=
  (repl.find? (fun kv => kv.1 = p)).map (fun kv => kv.2)

/-- `struct.pack_into("<I", l, off, v)`: stores little-endian 32 bits, raising
`struct.error` when the value does not fit 32 bits or the range
`[off, off+4)` is not inside the buffer. -/
def packU32 (l : List Nat) (off v : Int) : Except String (List Nat) :=
  if 0 ≤ off ∧ off + 4 ≤ (l.length : Int) ∧ 0 ≤ v ∧ v < 4294967296 then
    .ok (writeU32 l off.toNat v.toNat)
  else .error "struct.error"

/-- The cascading update of `_apply_replacements` (rs.py lines 917-937):
shift a sibling entry when its `chunk_offset` lies strictly after the
mutated chunk. -/
def shiftAfter (c delta : Int) (o : Entry) : Entry :=
  if o.layout ≠ .rscf then o
  else
    match o.chunk_offset with
    | none => o
    | some oc =>
      if oc ≤ c then o
      else
        { o with
          chunk_offset := some (oc + delta)
          offset := o.offset + delta
          offset_anchor := o.offset_anchor + delta
          header_offset := o.header_offset.map (fun x => x + delta) }

/-- One iteration of the `for entry in entries` loop of `_apply_replacements`
(rs.py lines 877-968), acting on entry index `i`. -/
def applyStep (repl : List (String × List Nat)) (st : List Nat × List Entry)
    (i : Nat) : Except String (List Nat × List Entry) :=
  let buf := st.1
  let entries := st.2
  match entries.get? i with
  | none => .ok st
  | some entry =>
    match lookupReplacement repl entry.relative_path with
    | none => .ok st
    | some payload =>
      let new_size : Int := payload.length
      let start := entry.offset
      let stop := start + entry.size
      if entry.layout = .rscf then
        match entry.chunk_offset, entry.header_offset with
        | some c, some h => do
          let delta := new_size - entry.size
          let buf1 := splice buf start.toNat stop.toNat payload
          let entry1 :=
            { entry with offset := start, size := new_size,
                         header_data_span := new_size }
          let buf2 ← packU32 buf1 (h + 8) new_size
          if delta ≠ 0 then
            let newChunkSize := entry1.chunk_size + delta
            if newChunkSize ≤ 0 then
              .error "replacement would shrink the RSCF chunk below zero bytes"
            else do
              let buf3 ← packU32 buf2 (c + 4) newChunkSize
              let entry2 := { entry1 with chunk_size := newChunkSize }
              let entries2 := (entries.set i entry2).mapIdx
                (fun j o => if j = i then o else shiftAfter c delta o)
              .ok (buf3, entries2)
          else .ok (buf2, entries.set i entry1)
        | _, _ => .error "replacement is missing chunk metadata"
      else
        let placed :=
          if new_size = entry.size then
            ((start, splice buf start.toNat stop.toNat payload) : Int × List Nat)
          else
            let padding := (4 - buf.length % 4) % 4
            let bufp := buf ++ List.replicate padding 0
            ((bufp.length : Int), bufp ++ payload)
        let new_offset := placed.1
        let buf1 := placed.2
        let rawOffset := new_offset - entry.offset_anchor
        if rawOffset < 0 then
          .error "replacement would produce a negative offset"
        else if rawOffset > 4294967295 then
          .error "replacement exceeds 32-bit offset capacity"
        else do
          let buf2 ← packU32 buf1 entry.table_offset rawOffset
          let buf3 ← packU32 buf2 (entry.table_offset + 4) new_size
          let buf4 ← packU32 buf3 (entry.table_offset + 8) entry.unk
          let entry1 :=
            { entry with offset := new_offset, size := new_size,
                         raw_offset := rawOffset }
          .ok (buf4, entries.set i entry1)

/-- `_apply_replacements` (rs.py lines 864-970): a fresh `bytearray` copy of
the archive folded through the entry loop in list order. -/
def applyReplacements (buf : List Nat) (entries : List Entry)
    (repl : List (String × List Nat)) :
    Except String (List Nat × List Entry) :=
  (List.range entries.length).foldlM (fun st i => applyStep repl st i)
    (buf, entries)

/-! ### `generate_patch_archive` entry selection (rs.py lines 1201-1229) -/

/-- Python dict comprehension `{e["relative_path"]: e for e in l}`:
the last entry with a given path wins. -/
def indexByPath (l : List Entry) (p : String) : Option Entry :=
  l.reverse.find? (fun e => e.relative_path = p)

/-- Python `archive_bytes[start : start + size]`. -/
def sliceBytes (l : List Nat) (start size : Nat) : List Nat :=
  (l.drop start).take size

/-- The `patch_entries` selection loop of `generate_patch_archive`
(rs.py lines 1208-1229), including the empty-selection error.  `repl` is the
already-normalised replacement mapping in insertion order. -/
def patchKeep (filesInfo : List Entry) (archiveBytes : Option (List Nat))
    (originalEntries : Option (List Entry)) (kv : String × List Nat) :
    Option (Entry × List Nat) :=
  match indexByPath filesInfo kv.1 with
  | none => none
  | some me =>
    match originalEntries, archiveBytes with
    | some orig, some ab =>
      match indexByPath orig kv.1 with
      | none => none
      | some oe =>
        let originalPayload := sliceBytes ab oe.offset.toNat oe.size.toNat
        if kv.2 = originalPayload then none else some (me, kv.2)
    | _, _ => some (me, kv.2)

def generatePatchSelection (filesInfo : List Entry)
    (repl : List (String × List Nat)) (archiveBytes : Option (List Nat))
    (originalEntries : Option (List Entry)) :
    Except String (List (Entry × List Nat)) :=
  let patchEntries :=
    repl.filterMap (patchKeep filesInfo archiveBytes originalEntries)
  if patchEntries = [] then
    .error "no modified files differ from the original archive"
  else .ok patchEntries

/-! ### Basic buffer lemmas -/

theorem length_writeU32 (l : List Nat) (i v : Nat) :
    (writeU32 l i v).length = l.length := by
  simp [writeU32]

theorem getByte_set_self (l : List Nat) (i v : Nat) (h : i < l.length) :
    getByte (l.set i v) i = v := by
  simp [getByte, List.getD_eq_getElem?_getD, List.getElem?_set_self, h]

theorem getByte_set_ne (l : List Nat) (i j v : Nat) (h : i ≠ j) :
    getByte (l.set i v) j = getByte l j := by
  simp [getByte, List.getD_eq_getElem?_getD, List.getElem?_set_ne h]

theorem readU32_writeU32 (l : List Nat) (i v : Nat) (h : i + 4 ≤ l.length) :
    readU32 (writeU32 l i v) i = v % 4294967296 := by
  have h0 : getByte (writeU32 l i v) i = v % 256 := by
    unfold writeU32
    rw [getByte_set_ne _ _ _ _ (by omega), getByte_set_ne _ _ _ _ (by omega),
      getByte_set_ne _ _ _ _ (by omega)]
    exact getByte_set_self _ _ _ (by omega)
  have h1 : getByte (writeU32 l i v) (i + 1) = v / 256 % 256 := by
    unfold writeU32
    rw [getByte_set_ne _ _ _ _ (by omega), getByte_set_ne _ _ _ _ (by omega)]
    exact getByte_set_self _ _ _ (by simpa using by omega)
  have h2 : getByte (writeU32 l i v) (i + 2) = v / 65536 % 256 := by
    unfold writeU32
    rw [getByte_set_ne _ _ _ _ (by omega)]
    exact getByte_set_self _ _ _ (by simpa using by omega)
  have h3 : getByte (writeU32 l i v) (i + 3) = v / 16777216 % 256 := by
    unfold writeU32
    exact getByte_set_self _ _ _ (by simpa using by omega)
  unfold readU32
  rw [h0, h1, h2, h3]
  omega

theorem readU32_writeU32_disjoint (l : List Nat) (i j v : Nat)
    (h : i + 4 ≤ j ∨ j + 4 ≤ i) :
    readU32 (writeU32 l i v) j = readU32 l j := by
  unfold readU32 writeU32
  rw [getByte_set_ne _ _ _ _ (by omega), getByte_set_ne _ _ _ _ (by omega),
    getByte_set_ne _ _ _ _ (by omega), getByte_set_ne _ _ _ _ (by omega),
    getByte_set_ne _ _ _ _ (by omega), getByte_set_ne _ _ _ _ (by omega),
    getByte_set_ne _ _ _ _ (by omega), getByte_set_ne _ _ _ _ (by omega),
    getByte_set_ne _ _ _ _ (by omega), getByte_set_ne _ _ _ _ (by omega),
    getByte_set_ne _ _ _ _ (by omega), getByte_set_ne _ _ _ _ (by omega),
    getByte_set_ne _ _ _ _ (by omega), getByte_set_ne _ _ _ _ (by omega),
    getByte_set_ne _ _ _ _ (by omega), getByte_set_ne _ _ _ _ (by omega)]

theorem getByte_append_right (a b : List Nat) (k : Nat) :
    getByte (a ++ b) (a.length + k) = getByte b k := by
  simp [getByte, List.getD_eq_getElem?_getD, List.getElem?_append_right
    (Nat.le_add_right a.length k)]

theorem readU32_append_right (a b : List Nat) (k : Nat) :
    readU32 (a ++ b) (a.length + k) = readU32 b k := by
  unfold readU32
  rw [show a.length + k + 1 = a.length + (k + 1) by omega,
    show a.length + k + 2 = a.length + (k + 2) by omega,
    show a.length + k + 3 = a.length + (k + 3) by omega,
    getByte_append_right, getByte_append_right, getByte_append_right,
    getByte_append_right]

theorem getByte_append_left (a b : List Nat) (k : Nat) (h : k < a.length) :
    getByte (a ++ b) k = getByte a k := by
  simp [getByte, List.getD_eq_getElem?_getD, List.getElem?_append_left h]

theorem readU32_append_left (a b : List Nat) (k : Nat) (h : k + 4 ≤ a.length) :
    readU32 (a ++ b) k = readU32 a k := by
  unfold readU32
  rw [getByte_append_left _ _ _ (by omega), getByte_append_left _ _ _ (by omega),
    getByte_append_left _ _ _ (by omega), getByte_append_left _ _ _ (by omega)]

theorem readU32_u32le_append (v : Nat) (rest : List Nat) :
    readU32 (u32le v ++ rest) 0 = v % 4294967296 := by
  have h : readU32 (u32le v ++ rest) 0 = readU32 (u32le v) 0 := by
    apply readU32_append_left
    simp [u32le]
  rw [h]
  unfold readU32 u32le getByte
  simp [List.getD]
  omega

theorem length_u32le (v : Nat) : (u32le v).length = 4 := by simp [u32le]

theorem length_splice (l : List Nat) (a b : Nat) (r : List Nat)
    (hab : a ≤ b) (hb : b ≤ l.length) :
    (splice l a b r).length = l.length - (b - a) + r.length := by
  simp [splice, List.length_take, List.length_drop]
  omega

theorem getByte_splice_before (l : List Nat) (a b : Nat) (r : List Nat)
    (k : Nat) (hk : k < a) (ha : a ≤ l.length) :
    getByte (splice l a b r) k = getByte l k := by
  unfold splice
  rw [show l.take a ++ r ++ l.drop (max a b)
      = l.take a ++ (r ++ l.drop (max a b)) by simp,
    getByte_append_left _ _ _ (by simp [List.length_take]; omega)]
  simp [getByte, List.getD_eq_getElem?_getD, List.getElem?_take_of_lt hk]

theorem readU32_splice_before (l : List Nat) (a b : Nat) (r : List Nat)
    (k : Nat) (hk : k + 4 ≤ a) (ha : a ≤ l.length) :
    readU32 (splice l a b r) k = readU32 l k := by
  unfold readU32
  rw [getByte_splice_before _ _ _ _ _ (by omega) ha,
    getByte_splice_before _ _ _ _ _ (by omega) ha,
    getByte_splice_before _ _ _ _ _ (by omega) ha,
    getByte_splice_before _ _ _ _ _ (by omega) ha]

/-! ### C1 — RSFL offset anchor resolution -/

/-- Modelled from the spec wording, for comparison with the source
(`resolve_entry_offset`): first candidate base is the chunk's absolute end
position `rsfl_offset + rsfl_chunk_size`, second candidate the chunk start. -/
def resolveEntryOffsetSpec (raw_offset size data_length rsfl_offset
    rsfl_chunk_size : Int) : Except String Int :=
  let first := raw_offset + (rsfl_offset + rsfl_chunk_size)
  let chosen := if first + size > data_length then raw_offset + rsfl_offset else first
  if chosen + size > data_length then
    .error "entry points outside of archive bounds"
  else .ok chosen

/-- C1 counterexample: with the table chunk at offset 8, chunk size 20,
buffer length 40, `raw_offset = 0` and `size = 12`, the chunk-end base 28
demanded by the claim is admissible (28 + 12 ≤ 40) yet the code resolves the
entry at 20 = `raw_offset + rsfl_chunk_size`, not at the chunk's absolute end
position. -/
theorem C1_counterexample :
    resolve_entry_offset 0 12 40 8 20 = .ok 20 ∧
    resolveEntryOffsetSpec 0 12 40 8 20 = .ok 28 ∧
    resolve_entry_offset 0 12 40 8 20 ≠ resolveEntryOffsetSpec 0 12 40 8 20 := by
  refine ⟨rfl, rfl, ?_⟩
  simp [resolve_entry_offset, resolveEntryOffsetSpec]

/-- C1 (amended): offset resolution first tries `base = rsfl_chunk_size`
(the chunk's size value, not its absolute end); if `raw_offset + size` with
that base would exceed the buffer length it retries with
`base = rsfl_offset` (the chunk start); if both candidates exceed the buffer
the loader fails with a bounds error; and the successful base is stored as
`offset_anchor`, so that `offset = offset_anchor + raw_offset` and
`offset + size ≤ data_length`. -/
theorem C1_offset_anchor_resolution (raw size len off csize : Int) :
    (raw + csize + size ≤ len →
      normalise_entry_offset raw size len off csize = .ok (raw + csize, csize)) ∧
    (raw + csize + size > len → raw + off + size ≤ len →
      normalise_entry_offset raw size len off csize = .ok (raw + off, off)) ∧
    (raw + csize + size > len → raw + off + size > len →
      normalise_entry_offset raw size len off csize =
        .error "entry points outside of archive bounds") ∧
    (∀ o a, normalise_entry_offset raw size len off csize = .ok (o, a) →
      o = a + raw ∧ o + size ≤ len) := by
  have hres : resolve_entry_offset raw size len off csize =
      if raw + csize + size ≤ len then .ok (raw + csize)
      else if raw + off + size ≤ len then .ok (raw + off)
      else .error "entry points outside of archive bounds" := by
    simp only [resolve_entry_offset]
    by_cases h1 : raw + csize + size ≤ len
    · rw [if_neg (show ¬ raw + csize + size > len by omega),
        if_neg (show ¬ raw + csize + size > len by omega), if_pos h1]
    · rw [if_pos (show raw + csize + size > len by omega), if_neg h1]
      by_cases h2 : raw + off + size ≤ len
      · rw [if_neg (show ¬ raw + off + size > len by omega), if_pos h2]
      · rw [if_pos (show raw + off + size > len by omega), if_neg h2]
  unfold normalise_entry_offset
  rw [hres]
  refine ⟨?_, ?_, ?_, ?_⟩
  · intro h1
    rw [if_pos h1]
    dsimp only
    rw [show raw + csize - raw = csize by omega]
  · intro h1 h2
    rw [if_neg (by omega), if_pos h2]
    dsimp only
    rw [show raw + off - raw = off by omega]
  · intro h1 h2
    rw [if_neg (by omega), if_neg (by omega)]
  · intro o a h
    by_cases h1 : raw + csize + size ≤ len
    · rw [if_pos h1] at h
      dsimp only at h
      simp only [Except.ok.injEq, Prod.mk.injEq] at h
      omega
    · rw [if_neg h1] at h
      by_cases h2 : raw + off + size ≤ len
      · rw [if_pos h2] at h
        dsimp only at h
        simp only [Except.ok.injEq, Prod.mk.injEq] at h
        omega
      · rw [if_neg h2] at h
        exact absurd h (by simp)

/-- Witness for `C1_offset_anchor_resolution` at a concrete input. -/
theorem C1_offset_anchor_resolution_witness :
    (0 : Int) + 20 + 12 ≤ 40 ∧
    normalise_entry_offset 0 12 40 8 20 = .ok (20, 20) := by
  refine ⟨by norm_num, ?_⟩
  have h := (C1_offset_anchor_resolution 0 12 40 8 20).1 (by norm_num)
  simpa using h

/-! ### C5 — RSCF payload-offset candidate order -/

theorem rscfCandidateOk_eq (se ce dl : Int) (ds : Nat) (c : Int) :
    rscfCandidateOk se ce dl ds c =
      (decide (se ≤ c) && decide (c + (ds : Int) ≤ min ce dl)) := by
  by_cases h1 : se ≤ c <;> by_cases h2 : c + (ds : Int) ≤ ce <;>
    by_cases h3 : c + (ds : Int) ≤ dl <;>
      simp [rscfCandidateOk, h1, h2, h3, le_min_iff, not_lt, not_le] <;> omega

/-- C5: the RSCF payload offset is the first candidate, in the fixed order
`[string_end + data_offset, string_end + (data_offset & 0x00FFFFFF),
chunk_end - data_span]`, with `candidate ≥ string_end` and
`candidate + data_span ≤ min (chunk_end, buffer_length)`; parsing fails with
the payload-exceeds-chunk-bounds error if no candidate qualifies. -/
theorem C5_rscf_payload_offset_order (dl se ce : Int) (dof ds : Nat) :
    parse_rscf_payload_offset dl se ce dof ds =
      match ([se + (dof : Int), se + ((dof % 16777216 : Nat) : Int),
          ce - (ds : Int)].find?
          (fun c => decide (se ≤ c) && decide (c + (ds : Int) ≤ min ce dl))) with
      | some c => .ok c
      | none => .error "RSCF payload exceeds chunk bounds" := by
  have hq : (fun c => decide (se ≤ c) && decide (c + (ds : Int) ≤ min ce dl)) =
      rscfCandidateOk se ce dl ds := by
    funext c
    rw [rscfCandidateOk_eq]
  rw [hq]
  unfold parse_rscf_payload_offset rscfCandidateOffsets
  dsimp only
  set p := rscfCandidateOk se ce dl ds with hp
  set c1 : Int := se + (dof : Int) with hc1
  set c3 : Int := ce - (ds : Int) with hc3
  by_cases hm : (dof % 16777216) = dof
  · have hc2 : se + ((dof % 16777216 : Nat) : Int) = c1 := by
      rw [hm]
    rw [if_neg (show ¬ (dof % 16777216 ≠ dof) from not_not.mpr hm)]
    rw [hc2]
    have hl0 : registerCandidate [] c1 = [c1] := by
      simp [registerCandidate]
    rw [hl0]
    by_cases h3 : c3 = c1
    · rw [show registerCandidate [c1] c3 = [c1] by
        simp [registerCandidate, h3]]
      rw [h3]
      cases hp1 : p c1 <;> simp [List.find?, hp1]
    · rw [show registerCandidate [c1] c3 = [c1, c3] by
        simp [registerCandidate, h3]]
      cases hp1 : p c1 <;> cases hp3 : p c3 <;>
        simp [List.find?, hp1, hp3]
  · have hm2 : ((dof % 16777216 : Nat) : Int) ≠ (dof : Int) := by
      exact_mod_cast hm
    set c2 : Int := se + ((dof % 16777216 : Nat) : Int) with hc2
    have hne : c2 ≠ c1 := by
      rw [hc1, hc2]
      intro h
      exact hm2 (by omega)
    rw [if_pos hm]
    have hl0 : registerCandidate [] c1 = [c1] := by
      simp [registerCandidate]
    rw [hl0]
    rw [show registerCandidate [c1] c2 = [c1, c2] by
      simp [registerCandidate, hne]]
    by_cases h3 : c3 = c1
    · rw [show registerCandidate [c1, c2] c3 = [c1, c2] by
        simp [registerCandidate, h3]]
      rw [h3]
      cases hp1 : p c1 <;> cases hp2 : p c2 <;>
        simp [List.find?, hp1, hp2]
    · by_cases h3b : c3 = c2
      · rw [show registerCandidate [c1, c2] c3 = [c1, c2] by
          simp [registerCandidate, h3b]]
        rw [h3b]
        cases hp1 : p c1 <;> cases hp2 : p c2 <;>
          simp [List.find?, hp1, hp2]
      · rw [show registerCandidate [c1, c2] c3 = [c1, c2, c3] by
          simp [registerCandidate, h3, h3b]]

/-! ### C6 — AsuraZbb sub-chunk verification -/

/-- A decompressor for the C6 counterexample: decompresses the one-byte
stream `[9]` to two bytes. -/
def c6dec : List Nat → Option (List Nat) := fun l =>
  if l = [9] then some [1, 2] else none

/-- An AsuraZbb container whose single sub-header declares
`chunk_compressed = 1` and `chunk_uncompressed = 0`, while the sub-chunk
decompresses to 2 bytes. -/
def c6data : List Nat :=
  asuraZbbMagic ++ u32le 0 ++ u32le 0 ++ u32le 1 ++ u32le 0 ++ [9]

/-- C6 counterexample: the sub-chunk of `c6data` decompresses to `[1, 2]`
(length 2) while the stored `chunk_uncompressed` is 0 — a mismatch the claim
says is fatal — yet `_unwrap_asura_container` succeeds, because the length
check is skipped whenever the stored value is zero (Python truthiness
`if chunk_size and ...`); likewise `total_size = 0` does not stop
accumulation at 0 bytes. -/
theorem C6_counterexample :
    asuraUnwrap c6dec c6data = .ok ([1, 2], .zbb [2] 0) := by
  have h1 : zbbLoop c6dec c6data 16 [] [] 0 = .ok ([1, 2], [2]) := by
    rw [zbbLoop]
    norm_num [c6data, c6dec, asuraZbbMagic, u32le, readU32, getByte, List.getD]
    rw [zbbLoop]
    norm_num [c6data, asuraZbbMagic, u32le]
  norm_num [c6data, asuraZbbMagic, u32le] at h1
  norm_num [asuraUnwrap, c6data, c6dec, asuraZbbMagic, asuraMagic,
    asuraZlbMagic, u32le, readU32, getByte, List.getD, h1]

/-- C6 (amended): in the AsuraZbb sub-chunk loop, (a) a sub-header with
`chunk_compressed = 0` stops accumulation; (b) a sub-chunk whose stored
`chunk_uncompressed` is **nonzero** and differs from the decompressed length
is a fatal error; (c) after a sub-chunk whose stored size is zero or matches,
accumulation stops once `total_size` bytes have been accumulated provided
`total_size` is nonzero. -/
theorem C6_zbb_subchunk_verification (dec : List Nat → Option (List Nat))
    (data : List Nat) (cursor : Nat) (output sizes : List Nat) (total : Nat)
    (h : cursor + 8 ≤ data.length) :
    (readU32 data cursor = 0 →
      zbbLoop dec data cursor output sizes total = .ok (output, sizes)) ∧
    (∀ cd, readU32 data cursor ≠ 0 →
      ((data.drop (cursor + 8)).take (readU32 data cursor)).length =
        readU32 data cursor →
      dec ((data.drop (cursor + 8)).take (readU32 data cursor)) = some cd →
      readU32 data (cursor + 4) ≠ 0 →
      cd.length ≠ readU32 data (cursor + 4) →
      zbbLoop dec data cursor output sizes total =
        .error "decompressed chunk size does not match the value stored in the header") ∧
    (∀ cd, readU32 data cursor ≠ 0 →
      ((data.drop (cursor + 8)).take (readU32 data cursor)).length =
        readU32 data cursor →
      dec ((data.drop (cursor + 8)).take (readU32 data cursor)) = some cd →
      (readU32 data (cursor + 4) = 0 ∨
        cd.length = readU32 data (cursor + 4)) →
      total ≠ 0 → total ≤ output.length + cd.length →
      zbbLoop dec data cursor output sizes total =
        .ok (output ++ cd, sizes ++ [cd.length])) := by
  refine ⟨?_, ?_, ?_⟩
  · intro hcc
    rw [zbbLoop, dif_pos h, dif_pos hcc]
  · intro cd hcc hlen hdec hcs hne
    rw [zbbLoop, dif_pos h, dif_neg hcc, if_neg (by omega), hdec]
    dsimp only
    rw [if_pos ⟨hcs, hne⟩]
  · intro cd hcc hlen hdec hcs htot hge
    rw [zbbLoop, dif_pos h, dif_neg hcc, if_neg (by omega), hdec]
    dsimp only
    rw [if_neg (by omega), if_pos (show total ≠ 0 ∧ total ≤ (output ++ cd).length
      from ⟨htot, by simp; omega⟩)]

/-- Witness for `C6_zbb_subchunk_verification`: a stream whose sub-header
stores `chunk_uncompressed = 5` while decompression yields 2 bytes is
rejected. -/
theorem C6_zbb_subchunk_verification_witness :
    0 + 8 ≤ (u32le 1 ++ u32le 5 ++ [9]).length ∧
    zbbLoop c6dec (u32le 1 ++ u32le 5 ++ [9]) 0 [] [] 0 =
      .error "decompressed chunk size does not match the value stored in the header" := by
  refine ⟨by decide, ?_⟩
  exact (C6_zbb_subchunk_verification c6dec (u32le 1 ++ u32le 5 ++ [9]) 0 [] [] 0
    (by decide)).2.1 [1, 2] (by decide) (by decide) (by decide) (by decide)
    (by decide)

/-! ### C3 — wrap/unwrap roundtrip -/

theorem readU32_skip (a b : List Nat) (k : Nat) (hk : a.length ≤ k) :
    readU32 (a ++ b) k = readU32 b (k - a.length) := by
  obtain ⟨j, rfl⟩ : ∃ j, k = a.length + j := ⟨k - a.length, by omega⟩
  rw [readU32_append_right]
  congr 1
  omega

theorem readU32_u32le_of_lt (v : Nat) (rest : List Nat) (hv : v < 4294967296) :
    readU32 (u32le v ++ rest) 0 = v := by
  rw [readU32_u32le_append]
  omega

/-- `unwrap(wrap(payload, zlb))` recovers the payload and a `zlb` wrapper
whose `expected_size` is the payload length. -/
theorem unwrap_wrap_zlb (comp : List Nat → List Nat)
    (dec : List Nat → Option (List Nat)) (data : List Nat) (u e : Nat)
    (hdec : dec (comp data) = some data)
    (hclen : (comp data).length < 4294967296)
    (hdlen : data.length < 4294967296) (hu : u < 4294967296) :
    asuraUnwrap dec (asuraWrap comp data (.zlb u e)) =
      .ok (data, .zlb u data.length) := by
  have hassoc : asuraWrap comp data (.zlb u e) =
      asuraZlbMagic ++ (u32le u ++ (u32le (comp data).length ++
        (u32le data.length ++ comp data))) := by
    simp [asuraWrap, List.append_assoc]
  unfold asuraUnwrap
  rw [hassoc]
  rw [List.take_left' (by simp [asuraZlbMagic] : asuraZlbMagic.length = 8)]
  rw [if_neg (by decide : ¬ asuraZlbMagic = asuraMagic), if_pos rfl]
  rw [if_neg (by simp [asuraZlbMagic, u32le])]
  have h8 : readU32 (asuraZlbMagic ++ (u32le u ++ (u32le (comp data).length ++
      (u32le data.length ++ comp data)))) 8 = u := by
    rw [readU32_skip _ _ _ (by simp [asuraZlbMagic])]
    rw [show (8 : Nat) - asuraZlbMagic.length = 0 by simp [asuraZlbMagic]]
    exact readU32_u32le_of_lt u _ hu
  have h12 : readU32 (asuraZlbMagic ++ (u32le u ++ (u32le (comp data).length ++
      (u32le data.length ++ comp data)))) 12 = (comp data).length := by
    rw [readU32_skip _ _ _ (by simp [asuraZlbMagic])]
    rw [show (12 : Nat) - asuraZlbMagic.length = 4 by simp [asuraZlbMagic]]
    rw [readU32_skip _ _ _ (by simp [u32le])]
    rw [show (4 : Nat) - (u32le u).length = 0 by simp [u32le]]
    exact readU32_u32le_of_lt _ _ hclen
  have h16 : readU32 (asuraZlbMagic ++ (u32le u ++ (u32le (comp data).length ++
      (u32le data.length ++ comp data)))) 16 = data.length := by
    rw [readU32_skip _ _ _ (by simp [asuraZlbMagic])]
    rw [show (16 : Nat) - asuraZlbMagic.length = 8 by simp [asuraZlbMagic]]
    rw [readU32_skip _ _ _ (by simp [u32le])]
    rw [show (8 : Nat) - (u32le u).length = 4 by simp [u32le]]
    rw [readU32_skip _ _ _ (by simp [u32le])]
    rw [show (4 : Nat) - (u32le (comp data).length).length = 0 by simp [u32le]]
    exact readU32_u32le_of_lt _ _ hdlen
  have hdrop : (asuraZlbMagic ++ (u32le u ++ (u32le (comp data).length ++
      (u32le data.length ++ comp data)))).drop 20 = comp data := by
    rw [show asuraZlbMagic ++ (u32le u ++ (u32le (comp data).length ++
        (u32le data.length ++ comp data))) =
      (asuraZlbMagic ++ u32le u ++ u32le (comp data).length ++
        u32le data.length) ++ comp data by simp [List.append_assoc]]
    exact List.drop_left' (by simp [asuraZlbMagic, u32le])
  rw [h8, h12, h16, hdrop]
  dsimp only
  have hpayload :
      (if (comp data).length ≠ 0 ∧ (comp data).length ≤ (comp data).length then
        (comp data).take (comp data).length
      else comp data) = comp data := by
    by_cases hz : (comp data).length = 0
    · rw [if_neg (by omega)]
    · rw [if_pos ⟨hz, le_refl _⟩, List.take_length]
  rw [hpayload, hdec]
  dsimp only
  rw [if_neg (by omega)]

/-- Generic single-step unfolding of `zbbLoop` at a cursor that points at a
well-formed encoded sub-chunk. -/
theorem zbbLoop_cons (dec : List Nat → Option (List Nat))
    (pre c rest output szs : List Nat) (chl total : Nat) (cd : List Nat)
    (hcl : c.length < 4294967296) (hchl : chl < 4294967296)
    (hcne : c ≠ []) (hdec : dec c = some cd)
    (hmatch : ¬ (chl ≠ 0 ∧ cd.length ≠ chl)) :
    zbbLoop dec (pre ++ (u32le c.length ++ (u32le chl ++ (c ++ rest))))
      pre.length output szs total =
      if total ≠ 0 ∧ total ≤ (output ++ cd).length then
        .ok (output ++ cd, szs ++ [cd.length])
      else
        zbbLoop dec (pre ++ (u32le c.length ++ (u32le chl ++ (c ++ rest))))
          (pre.length + 8 + c.length) (output ++ cd) (szs ++ [cd.length])
          total := by
  have hlen : pre.length + 8 ≤
      (pre ++ (u32le c.length ++ (u32le chl ++ (c ++ rest)))).length := by
    simp [u32le]
  have hcc : readU32 (pre ++ (u32le c.length ++ (u32le chl ++ (c ++ rest))))
      pre.length = c.length := by
    have h := readU32_append_right pre
      (u32le c.length ++ (u32le chl ++ (c ++ rest))) 0
    rw [Nat.add_zero] at h
    rw [h]
    exact readU32_u32le_of_lt _ _ hcl
  have hcs : readU32 (pre ++ (u32le c.length ++ (u32le chl ++ (c ++ rest))))
      (pre.length + 4) = chl := by
    rw [readU32_append_right pre _ 4,
      readU32_skip _ _ _ (by simp [u32le]),
      show (4 : Nat) - (u32le c.length).length = 0 by simp [u32le]]
    exact readU32_u32le_of_lt _ _ hchl
  have hdrop : (pre ++ (u32le c.length ++ (u32le chl ++ (c ++ rest)))).drop
      (pre.length + 8) = c ++ rest := by
    rw [show pre ++ (u32le c.length ++ (u32le chl ++ (c ++ rest))) =
      (pre ++ u32le c.length ++ u32le chl) ++ (c ++ rest) by
        simp [List.append_assoc]]
    exact List.drop_left' (by simp [u32le])
  rw [zbbLoop, dif_pos hlen]
  dsimp only
  rw [hcc, hcs, hdrop, List.take_left]
  rw [dif_neg (by simpa using hcne), if_neg (by simp), hdec]
  dsimp only
  rw [if_neg hmatch]

/-- The AsuraZbb stream produced by `zbbWrapLoop` decodes back, from any
cursor position, to the remaining payload; the decoded per-chunk sizes are
returned existentially. -/
theorem zbbLoop_wrap_roundtrip (comp : List Nat → List Nat)
    (dec : List Nat → Option (List Nat)) (sizes : List Nat)
    (dflt dlen : Nat)
    (hrt : ∀ x, x.length ≤ dlen → dec (comp x) = some x)
    (hne : ∀ x, x ≠ [] → x.length ≤ dlen → comp x ≠ [])
    (hclen : ∀ x, x.length ≤ dlen → (comp x).length < 4294967296)
    (hdlen : dlen < 4294967296) :
    ∀ (n : Nat) (remaining : List Nat) (idx : Nat) (pre output szs : List Nat),
      remaining.length ≤ n → remaining ≠ [] →
      output.length + remaining.length = dlen →
      ∃ lens, zbbLoop dec
        (pre ++ (zbbWrapLoop comp sizes dflt dlen idx remaining).1)
        pre.length output szs dlen = .ok (output ++ remaining, szs ++ lens) := by
  intro n
  induction n with
  | zero =>
    intro remaining idx pre output szs hn hrem hinv
    exact absurd (List.length_eq_zero.mp (Nat.le_antisymm hn (Nat.zero_le _)))
      hrem
  | succ n ih =>
    intro remaining idx pre output szs hn hrem hinv
    rw [zbbWrapLoop, dif_neg hrem]
    dsimp only
    generalize hH : max 1 (if sizes.getD idx dflt = 0 then
      (if dflt = 0 then dlen else dflt) else sizes.getD idx dflt) = hint
    have hint_pos : 1 ≤ hint := by
      rw [← hH]
      exact Nat.le_max_left 1 _
    have hchunk_ne : remaining.take hint ≠ [] := by
      rw [Ne, List.take_eq_nil_iff]
      push_neg
      exact ⟨by omega, hrem⟩
    have hchl_le : (remaining.take hint).length ≤ remaining.length := by
      simp [List.length_take]
    have hrlen_le : remaining.length ≤ dlen := by omega
    have hchunk_le : (remaining.take hint).length ≤ dlen :=
      le_trans hchl_le hrlen_le
    have hstep := zbbLoop_cons dec pre (comp (remaining.take hint))
      ((zbbWrapLoop comp sizes dflt dlen (idx + 1) (remaining.drop hint)).1)
      output szs (remaining.take hint).length dlen (remaining.take hint)
      (hclen _ hchunk_le) (by omega) (hne _ hchunk_ne hchunk_le)
      (hrt _ hchunk_le) (by simp)
    rw [show pre ++ (u32le (comp (remaining.take hint)).length ++
        u32le (remaining.take hint).length ++ comp (remaining.take hint) ++
        (zbbWrapLoop comp sizes dflt dlen (idx + 1) (remaining.drop hint)).1) =
      pre ++ (u32le (comp (remaining.take hint)).length ++
        (u32le (remaining.take hint).length ++ (comp (remaining.take hint) ++
        (zbbWrapLoop comp sizes dflt dlen (idx + 1)
          (remaining.drop hint)).1))) by simp [List.append_assoc]]
    rw [hstep]
    by_cases hrest : remaining.drop hint = []
    · have hcall : remaining.take hint = remaining := by
        have : remaining.length ≤ hint := List.drop_eq_nil_iff.mp hrest
        exact List.take_of_length_le this
      rw [if_pos (by
        rw [hcall]
        have hrpos : 0 < remaining.length := List.length_pos.mpr hrem
        exact ⟨by omega, by simp; omega⟩)]
      exact ⟨[remaining.length], by rw [hcall]⟩
    · have htlen : (remaining.take hint).length = hint := by
        have : ¬ remaining.length ≤ hint := fun h =>
          hrest (List.drop_eq_nil_iff.mpr h)
        simp [List.length_take]
        omega
      have hlt : hint < remaining.length := by
        have : ¬ remaining.length ≤ hint := fun h =>
          hrest (List.drop_eq_nil_iff.mpr h)
        omega
      rw [if_neg (by simp [htlen]; omega)]
      have hih := ih (remaining.drop hint) (idx + 1)
        (pre ++ u32le (comp (remaining.take hint)).length ++
          u32le (remaining.take hint).length ++ comp (remaining.take hint))
        (output ++ remaining.take hint) (szs ++ [(remaining.take hint).length])
        (by simp [List.length_drop]; omega) hrest
        (by simp [htlen, List.length_drop]; omega)
      obtain ⟨lens, hlens⟩ := hih
      refine ⟨(remaining.take hint).length :: lens, ?_⟩
      have harr : (pre ++ u32le (comp (remaining.take hint)).length ++
          u32le (remaining.take hint).length ++ comp (remaining.take hint)) ++
          (zbbWrapLoop comp sizes dflt dlen (idx + 1)
            (remaining.drop hint)).1 =
          pre ++ (u32le (comp (remaining.take hint)).length ++
            (u32le (remaining.take hint).length ++ (comp (remaining.take hint) ++
            (zbbWrapLoop comp sizes dflt dlen (idx + 1)
              (remaining.drop hint)).1))) := by
        simp [List.append_assoc]
      have hcur : (pre ++ u32le (comp (remaining.take hint)).length ++
          u32le (remaining.take hint).length ++
          comp (remaining.take hint)).length =
          pre.length + 8 + (comp (remaining.take hint)).length := by
        simp [u32le]
        omega
      rw [harr, hcur] at hlens
      rw [hlens]
      rw [show (output ++ remaining.take hint) ++ remaining.drop hint =
        output ++ remaining by
          rw [List.append_assoc, List.take_append_drop]]
      rw [show (szs ++ [(remaining.take hint).length]) ++ lens =
        szs ++ ((remaining.take hint).length :: lens) by simp]

/-- `unwrap(wrap(payload, raw))` is the identity roundtrip, provided the
payload carries the plain Asura signature. -/
theorem unwrap_wrap_raw (comp : List Nat → List Nat)
    (dec : List Nat → Option (List Nat)) (data : List Nat)
    (h : data.take 8 = asuraMagic) :
    asuraUnwrap dec (asuraWrap comp data .raw) = .ok (data, .raw) := by
  simp [asuraWrap, asuraUnwrap, h]

/-- `unwrap(wrap(payload, zbb))` recovers the payload and a `zbb` wrapper
carrying the actual per-chunk sizes and the payload length. -/
theorem unwrap_wrap_zbb (comp : List Nat → List Nat)
    (dec : List Nat → Option (List Nat)) (data : List Nat)
    (hrt : ∀ x, x.length ≤ data.length → dec (comp x) = some x)
    (hne : ∀ x, x ≠ [] → x.length ≤ data.length → comp x ≠ [])
    (hclen : ∀ x, x.length ≤ data.length → (comp x).length < 4294967296)
    (hdlen : data.length < 4294967296)
    (chunkSizes : List Nat) (t : Nat) :
    ∃ lens, asuraUnwrap dec (asuraWrap comp data (.zbb chunkSizes t)) =
      .ok (data, .zbb lens data.length) := by
  have hwrap : asuraWrap comp data (.zbb chunkSizes t) =
      asuraZbbMagic ++
        u32le (zbbWrapLoop comp (if chunkSizes = [] then [data.length]
          else chunkSizes) ((if chunkSizes = [] then [data.length]
          else chunkSizes).getLastD 0) data.length 0 data).2 ++
        u32le data.length ++
        (zbbWrapLoop comp (if chunkSizes = [] then [data.length]
          else chunkSizes) ((if chunkSizes = [] then [data.length]
          else chunkSizes).getLastD 0) data.length 0 data).1 := by
    rfl
  set sizes := if chunkSizes = [] then [data.length] else chunkSizes with hsizes
  set dflt := sizes.getLastD 0 with hdflt
  set stream := zbbWrapLoop comp sizes dflt data.length 0 data with hstream
  set pre := asuraZbbMagic ++ u32le stream.2 ++ u32le data.length with hpre
  have hprelen : pre.length = 16 := by
    simp [hpre, asuraZbbMagic, u32le]
  have htake : (pre ++ stream.1).take 8 = asuraZbbMagic := by
    rw [show pre ++ stream.1 = asuraZbbMagic ++
      (u32le stream.2 ++ u32le data.length ++ stream.1) by
        simp [hpre, List.append_assoc]]
    exact List.take_left' (by simp [asuraZbbMagic])
  have htotal : readU32 (pre ++ stream.1) 12 = data.length := by
    rw [show pre ++ stream.1 = (asuraZbbMagic ++ u32le stream.2) ++
      (u32le data.length ++ stream.1) by simp [hpre, List.append_assoc]]
    rw [readU32_skip _ _ _ (by simp [asuraZbbMagic, u32le])]
    rw [show (12 : Nat) - (asuraZbbMagic ++ u32le stream.2).length = 0 by
      simp [asuraZbbMagic, u32le]]
    exact readU32_u32le_of_lt _ _ hdlen
  rw [hwrap]
  rw [show asuraZbbMagic ++ u32le stream.2 ++ u32le data.length ++ stream.1 =
    pre ++ stream.1 by simp [hpre]]
  unfold asuraUnwrap
  rw [htake]
  rw [if_neg (by decide : ¬ asuraZbbMagic = asuraMagic),
    if_neg (by decide : ¬ asuraZbbMagic = asuraZlbMagic), if_pos rfl]
  rw [if_neg (by
    simp only [List.length_append, hprelen]
    omega)]
  rw [htotal]
  dsimp only
  by_cases hdata : data = []
  · subst hdata
    have hempty : stream.1 = [] := by
      rw [hstream, zbbWrapLoop, dif_pos rfl]
    have hloop : zbbLoop dec (pre ++ stream.1) 16 [] [] 0 =
        .ok ([], []) := by
      rw [zbbLoop, dif_neg (by
        simp only [List.length_append, hprelen, hempty]
        simp)]
    simp only [List.length_nil] at hloop ⊢
    rw [hloop]
    exact ⟨[], by simp⟩
  · obtain ⟨lens, hlens⟩ := zbbLoop_wrap_roundtrip comp dec
      sizes dflt data.length hrt hne hclen hdlen data.length data 0 pre [] []
      (le_refl _) hdata (by simp)
    rw [← hstream, hprelen] at hlens
    simp only [List.nil_append] at hlens
    rw [hlens]
    dsimp only
    refine ⟨lens, ?_⟩
    rw [if_neg (by simp)]

/-- C3 counterexample: for the empty payload and the `raw` wrapper, `wrap`
is the identity, and `unwrap` then fails with the unsupported-wrapper error
(the empty payload carries no Asura signature), so
`unwrap(wrap(payload, w))` does not succeed for every payload.  The
compressor/decompressor pair is irrelevant on this path. -/
theorem C3_counterexample :
    asuraUnwrap (fun _ => none) (asuraWrap (fun l => l) [] .raw) =
      .error "unsupported Asura container wrapper; try running the QuickBMS script first" := by
  rfl

/-- C3 (amended): for every wrapper `w` of kind `raw`, `zlb` or `zbb`,
`unwrap(wrap(payload, w))` succeeds and returns exactly the original payload
together with a wrapper of the same kind that is semantically equivalent
(wrapping the payload with it again unwraps back to the same payload) —
provided the payload begins with the 8-byte Asura signature when `w` is
`raw`, the stored `zlb` `unknown` field fits 32 bits, and payload and
compressed sizes stay below 2^32 (so the `u32` header fields are faithful).
The compressor/decompressor pair satisfies the zlib contract:
decompression inverts compression and compressed data is never empty. -/
theorem C3_wrap_unwrap_roundtrip (comp : List Nat → List Nat)
    (dec : List Nat → Option (List Nat)) (data : List Nat)
    (hrt : ∀ x, x.length ≤ data.length → dec (comp x) = some x)
    (hne : ∀ x, x ≠ [] → x.length ≤ data.length → comp x ≠ [])
    (hclen : ∀ x, x.length ≤ data.length → (comp x).length < 4294967296)
    (hdlen : data.length < 4294967296) (w : Wrapper)
    (hu : ∀ u e, w = .zlb u e → u < 4294967296)
    (hraw : w = .raw → data.take 8 = asuraMagic) :
    ∃ wr, asuraUnwrap dec (asuraWrap comp data w) = .ok (data, wr) ∧
      wr.kind = w.kind ∧
      ∃ wr2, asuraUnwrap dec (asuraWrap comp data wr) = .ok (data, wr2) := by
  cases w with
  | raw =>
    exact ⟨.raw, unwrap_wrap_raw comp dec data (hraw rfl), rfl, .raw,
      unwrap_wrap_raw comp dec data (hraw rfl)⟩
  | zlb u e =>
    exact ⟨.zlb u data.length,
      unwrap_wrap_zlb comp dec data u e (hrt data (le_refl _))
        (hclen data (le_refl _)) hdlen (hu u e rfl), rfl,
      .zlb u data.length,
      unwrap_wrap_zlb comp dec data u data.length (hrt data (le_refl _))
        (hclen data (le_refl _)) hdlen (hu u e rfl)⟩
  | zbb s t =>
    obtain ⟨lens, h⟩ := unwrap_wrap_zbb comp dec data hrt hne hclen hdlen s t
    obtain ⟨lens2, h2⟩ := unwrap_wrap_zbb comp dec data hrt hne hclen hdlen
      lens data.length
    exact ⟨.zbb lens data.length, h, rfl, .zbb lens2 data.length, h2⟩

/-- Witness for `C3_wrap_unwrap_roundtrip`: a two-byte payload, the
cons-a-zero compressor, and a `zbb` wrapper with chunk-size hint 1. -/
theorem C3_wrap_unwrap_roundtrip_witness :
    ∃ wr, asuraUnwrap (fun l => match l with | 0 :: t => some t | _ => none)
        (asuraWrap (fun l => 0 :: l) [3, 4] (.zbb [1] 2)) = .ok ([3, 4], wr) ∧
      wr.kind = (Wrapper.zbb [1] 2).kind ∧
      ∃ wr2, asuraUnwrap (fun l => match l with | 0 :: t => some t | _ => none)
        (asuraWrap (fun l => 0 :: l) [3, 4] wr) = .ok ([3, 4], wr2) := by
  exact C3_wrap_unwrap_roundtrip (fun l => 0 :: l)
    (fun l => match l with | 0 :: t => some t | _ => none) [3, 4]
    (fun x _ => rfl) (fun x _ _ => by simp) (fun x hx => by simp at hx ⊢; omega)
    (by decide) (.zbb [1] 2) (fun u e h => by cases h) (fun h => by cases h)

/-! ### Replacement-engine helper lemmas -/

theorem writeU32_append_left (a b : List Nat) (i v : Nat)
    (h : i + 4 ≤ a.length) :
    writeU32 (a ++ b) i v = writeU32 a i v ++ b := by
  unfold writeU32
  rw [List.set_append_left i (v % 256) (by omega),
    List.set_append_left (i + 1) (v / 256 % 256) (by simp; omega),
    List.set_append_left (i + 2) (v / 65536 % 256) (by simp; omega),
    List.set_append_left (i + 3) (v / 16777216 % 256) (by simp; omega)]

theorem sliceBytes_writeU32_before (l : List Nat) (i v s n : Nat)
    (h : i + 4 ≤ s) :
    sliceBytes (writeU32 l i v) s n = sliceBytes l s n := by
  unfold sliceBytes writeU32
  rw [List.drop_set, if_pos (by omega), List.drop_set, if_pos (by omega),
    List.drop_set, if_pos (by omega), List.drop_set, if_pos (by omega)]

theorem get?_mapIdx (l : List Entry) (f : Nat → Entry → Entry) (j : Nat) :
    (l.mapIdx f).get? j = (l.get? j).map (f j) := by
  by_cases hj : j < l.length
  · have h2 : j < (l.mapIdx f).length := by
      simpa [List.length_mapIdx] using hj
    rw [List.get?_eq_get h2, List.get?_eq_get hj, List.get_mapIdx]
    rfl
  · have h1 : l.length ≤ j := Nat.le_of_not_lt hj
    have h2 : (l.mapIdx f).length ≤ j := by
      simpa [List.length_mapIdx] using h1
    rw [List.get?_eq_none.mpr h2, List.get?_eq_none.mpr h1]
    rfl

theorem packU32_ok (l : List Nat) (off v : Int)
    (h : 0 ≤ off ∧ off + 4 ≤ (l.length : Int) ∧ 0 ≤ v ∧ v < 4294967296) :
    packU32 l off v = .ok (writeU32 l off.toNat v.toNat) := by
  rw [packU32, if_pos h]

theorem except_bind_ok {α β : Type} (a : α) (f : α → Except String β) :
    (Except.ok a : Except String α) >>= f = f a := rfl

theorem option_map_some (f : Entry → Entry) (o : Entry) :
    Option.map f (some o) = some (f o) := rfl

/-! ### C2 — RSCF replacement with size change -/

/-- C2: when a replacement changes an RSCF entry's payload size by a nonzero
delta, the replacement step rewrites the entry's embedded size field at
`header_offset + 8` to the new length, adjusts the enclosing chunk's declared
total size at `chunk_offset + 4` by delta (failing when the result would be
`≤ 0`), and shifts `chunk_offset`, `offset`, `offset_anchor` and
`header_offset` of every other entry whose `chunk_offset` is strictly greater
than the mutated chunk's offset by exactly delta.  `applyStep` is one
iteration of the `_apply_replacements` loop, and `applyReplacements` is
definitionally the fold of `applyStep` over the entry indices in order, so
the shift lands before any later replacement is processed. -/
theorem C2_rscf_replacement (repl : List (String × List Nat)) (buf : List Nat)
    (entries : List Entry) (i : Nat) (e : Entry) (c h : Int)
    (payload : List Nat)
    (hget : entries.get? i = some e)
    (hlook : lookupReplacement repl e.relative_path = some payload)
    (hlay : e.layout = .rscf)
    (hc : e.chunk_offset = some c) (hh : e.header_offset = some h)
    (hc0 : 0 ≤ c) (hch : c + 8 ≤ h + 8) (hhs : h + 12 ≤ e.offset)
    (hsz : 0 ≤ e.size) (hbound : e.offset + e.size ≤ (buf.length : Int))
    (hplen : (payload.length : Int) < 4294967296)
    (hdelta : (payload.length : Int) - e.size ≠ 0) :
    (e.chunk_size + ((payload.length : Int) - e.size) ≤ 0 →
      applyStep repl (buf, entries) i =
        .error "replacement would shrink the RSCF chunk below zero bytes") ∧
    (0 < e.chunk_size + ((payload.length : Int) - e.size) →
      e.chunk_size + ((payload.length : Int) - e.size) < 4294967296 →
      ∃ bufOut entriesOut,
        applyStep repl (buf, entries) i = .ok (bufOut, entriesOut) ∧
        (bufOut.length : Int) =
          (buf.length : Int) + ((payload.length : Int) - e.size) ∧
        readU32 bufOut (h + 8).toNat = payload.length ∧
        readU32 bufOut (c + 4).toNat =
          (e.chunk_size + ((payload.length : Int) - e.size)).toNat ∧
        entriesOut.get? i = some
          { e with
              offset := e.offset,
              size := (payload.length : Int),
              header_data_span := (payload.length : Int),
              chunk_size :=
                e.chunk_size + ((payload.length : Int) - e.size) } ∧
        (∀ j, j ≠ i → ∀ o oc, entries.get? j = some o → o.layout = .rscf →
          o.chunk_offset = some oc → c < oc →
          entriesOut.get? j = some
            { o with
                chunk_offset := some (oc + ((payload.length : Int) - e.size)),
                offset := o.offset + ((payload.length : Int) - e.size),
                offset_anchor :=
                  o.offset_anchor + ((payload.length : Int) - e.size),
                header_offset := o.header_offset.map
                  (fun x => x + ((payload.length : Int) - e.size)) })) := by
  have hsplice := length_splice buf e.offset.toNat (e.offset + e.size).toNat
    payload (by omega) (by omega)
  have hpack1 : packU32 (splice buf e.offset.toNat (e.offset + e.size).toNat
      payload) (h + 8) (payload.length : Int) =
      .ok (writeU32 (splice buf e.offset.toNat (e.offset + e.size).toNat
        payload) (h + 8).toNat ((payload.length : Int)).toNat) := by
    apply packU32_ok
    refine ⟨by omega, ?_, by omega, hplen⟩
    rw [hsplice]
    push_cast
    omega
  constructor
  · intro hle
    unfold applyStep
    dsimp only
    rw [hget]
    dsimp only
    rw [hlook]
    simp only [hlay, hc, hh, if_true]
    rw [hpack1, except_bind_ok]
    try dsimp only
    rw [if_pos hdelta]
    try dsimp only
    rw [if_pos hle]
  · intro hpos hlt
    have hpack2 : packU32 (writeU32 (splice buf e.offset.toNat
        (e.offset + e.size).toNat payload) (h + 8).toNat
        ((payload.length : Int)).toNat) (c + 4)
        (e.chunk_size + ((payload.length : Int) - e.size)) =
        .ok (writeU32 (writeU32 (splice buf e.offset.toNat
          (e.offset + e.size).toNat payload) (h + 8).toNat
          ((payload.length : Int)).toNat) (c + 4).toNat
          (e.chunk_size + ((payload.length : Int) - e.size)).toNat) := by
      apply packU32_ok
      refine ⟨by omega, ?_, by omega, hlt⟩
      rw [length_writeU32, hsplice]
      push_cast
      omega
    refine ⟨writeU32 (writeU32 (splice buf e.offset.toNat
        (e.offset + e.size).toNat payload) (h + 8).toNat
        ((payload.length : Int)).toNat) (c + 4).toNat
        (e.chunk_size + ((payload.length : Int) - e.size)).toNat,
      (entries.set i
        { e with
            offset := e.offset,
            size := (payload.length : Int),
            layout := .rscf,
            chunk_offset := some c,
            header_offset := some h,
            header_data_span := (payload.length : Int),
            chunk_size :=
              e.chunk_size + ((payload.length : Int) - e.size) }).mapIdx
        (fun j o => if j = i then o
          else shiftAfter c ((payload.length : Int) - e.size) o),
      ?_, ?_, ?_, ?_, ?_, ?_⟩
    · unfold applyStep
      dsimp only
      rw [hget]
      dsimp only
      rw [hlook]
      simp only [hlay, hc, hh, if_true]
      rw [hpack1, except_bind_ok]
      try dsimp only
      rw [if_pos hdelta]
      try dsimp only
      rw [if_neg (by omega), hpack2, except_bind_ok]
    · rw [length_writeU32, length_writeU32, hsplice]
      push_cast
      omega
    · rw [readU32_writeU32_disjoint _ _ _ _ (Or.inl (by omega)),
        readU32_writeU32 _ _ _ (by rw [hsplice]; omega)]
      omega
    · rw [readU32_writeU32 _ _ _ (by rw [length_writeU32, hsplice]; omega)]
      omega
    · rw [get?_mapIdx]
      have hi : i < entries.length := (List.get?_eq_some.mp hget).1
      rw [List.get?_set_eq_of_lt _ (by simpa using hi), option_map_some]
      try dsimp only
      rw [if_pos rfl, hlay, hc, hh]
    · intro j hj o oc hgo hol hoc hgt
      rw [get?_mapIdx, List.get?_set_ne _ _ (Ne.symm hj), hgo,
        option_map_some]
      try dsimp only
      rw [if_neg hj]
      unfold shiftAfter
      rw [if_neg (by simp [hol]), hoc]
      dsimp only
      rw [if_neg (by omega)]

/-- A two-chunk RSCF model used by the C2 witness: first chunk at offset 0. -/
def w2e0 : Entry :=
  { relative_path := "a", offset := 32, size := 4, layout := .rscf,
    chunk_offset := some 0, chunk_size := 36, header_offset := some 16,
    offset_anchor := 32 }

/-- Second chunk of the C2 witness model, at offset 100. -/
def w2e1 : Entry :=
  { relative_path := "b", offset := 132, size := 4, layout := .rscf,
    chunk_offset := some 100, chunk_size := 36, header_offset := some 116,
    offset_anchor := 132 }

/-- Witness for `C2_rscf_replacement` at a concrete two-entry archive. -/
theorem C2_rscf_replacement_witness :
    ∃ bufOut entriesOut,
      applyStep [("a", [1, 2, 3, 4, 5, 6, 7, 8])]
        (List.replicate 36 7, [w2e0, w2e1]) 0 = .ok (bufOut, entriesOut) ∧
      readU32 bufOut ((16 : Int) + 8).toNat =
        [1, 2, 3, 4, 5, 6, 7, 8].length := by
  obtain ⟨b, es, h1, _, h3, _⟩ :=
    (C2_rscf_replacement [("a", [1, 2, 3, 4, 5, 6, 7, 8])]
      (List.replicate 36 7) [w2e0, w2e1] 0 w2e0 0 16 [1, 2, 3, 4, 5, 6, 7, 8]
      rfl rfl rfl rfl rfl (by decide) (by decide) (by decide) (by decide)
      (by decide) (by decide) (by decide)).2 (by decide) (by decide)
  exact ⟨b, es, h1, h3⟩

/-! ### C4 / C7 — RSFL replacements -/

theorem getByte_writeU32_outside (l : List Nat) (i v k : Nat)
    (h : k < i ∨ i + 4 ≤ k) :
    getByte (writeU32 l i v) k = getByte l k := by
  unfold writeU32
  rw [getByte_set_ne _ _ _ _ (by omega), getByte_set_ne _ _ _ _ (by omega),
    getByte_set_ne _ _ _ _ (by omega), getByte_set_ne _ _ _ _ (by omega)]

theorem sliceBytes_splice (l : List Nat) (a b : Nat) (r : List Nat)
    (ha : a ≤ l.length) :
    sliceBytes (splice l a b r) a r.length = r := by
  unfold sliceBytes splice
  rw [show l.take a ++ r ++ l.drop (max a b) =
    l.take a ++ (r ++ l.drop (max a b)) by simp [List.append_assoc]]
  rw [List.drop_left' (by simp [List.length_take]; omega)]
  rw [List.take_left]

/-- C4: for an RSFL entry whose replacement payload has a different size,
the replacement step pads the buffer to a 4-byte boundary with zero bytes,
appends the new payload at the end, and rewrites the 12-byte table record in
place so that the stored `raw_offset` satisfies
`raw_offset + offset_anchor = new physical offset`; a `raw_offset` that
would be negative, or exceed `0xFFFFFFFF`, is rejected with an error. -/
theorem C4_rsfl_grow_replacement (repl : List (String × List Nat))
    (buf : List Nat) (entries : List Entry) (i : Nat) (e : Entry)
    (payload : List Nat)
    (hget : entries.get? i = some e)
    (hlook : lookupReplacement repl e.relative_path = some payload)
    (hlay : e.layout = .rsfl)
    (hdiff : (payload.length : Int) ≠ e.size)
    (htbl0 : 0 ≤ e.table_offset)
    (htbl : e.table_offset + 12 ≤ (buf.length : Int))
    (hunk0 : 0 ≤ e.unk) (hunklt : e.unk < 4294967296)
    (hplen : (payload.length : Int) < 4294967296) :
    (((buf.length + (4 - buf.length % 4) % 4 : Nat) : Int) -
        e.offset_anchor < 0 →
      applyStep repl (buf, entries) i =
        .error "replacement would produce a negative offset") ∧
    (0 ≤ ((buf.length + (4 - buf.length % 4) % 4 : Nat) : Int) -
        e.offset_anchor →
      ((buf.length + (4 - buf.length % 4) % 4 : Nat) : Int) -
        e.offset_anchor > 4294967295 →
      applyStep repl (buf, entries) i =
        .error "replacement exceeds 32-bit offset capacity") ∧
    (0 ≤ ((buf.length + (4 - buf.length % 4) % 4 : Nat) : Int) -
        e.offset_anchor →
      ((buf.length + (4 - buf.length % 4) % 4 : Nat) : Int) -
        e.offset_anchor ≤ 4294967295 →
      ∃ bufOut,
        applyStep repl (buf, entries) i = .ok (bufOut, entries.set i
          { e with
              offset := ((buf.length + (4 - buf.length % 4) % 4 : Nat) : Int),
              size := (payload.length : Int),
              raw_offset :=
                ((buf.length + (4 - buf.length % 4) % 4 : Nat) : Int) -
                  e.offset_anchor }) ∧
        bufOut.length = buf.length + (4 - buf.length % 4) % 4 +
          payload.length ∧
        (buf.length + (4 - buf.length % 4) % 4) % 4 = 0 ∧
        (∀ k, k < (4 - buf.length % 4) % 4 →
          getByte bufOut (buf.length + k) = 0) ∧
        sliceBytes bufOut (buf.length + (4 - buf.length % 4) % 4)
          payload.length = payload ∧
        readU32 bufOut e.table_offset.toNat =
          (((buf.length + (4 - buf.length % 4) % 4 : Nat) : Int) -
            e.offset_anchor).toNat ∧
        (((buf.length + (4 - buf.length % 4) % 4 : Nat) : Int) -
            e.offset_anchor) + e.offset_anchor =
          ((buf.length + (4 - buf.length % 4) % 4 : Nat) : Int)) := by
  have hlayne : ¬ e.layout = Layout.rscf := by
    rw [hlay]
    decide
  refine ⟨?_, ?_, ?_⟩
  · intro hneg
    unfold applyStep
    dsimp only
    rw [hget]
    dsimp only
    rw [hlook]
    simp only [if_neg hlayne]
    rw [if_neg hdiff]
    try dsimp only
    rw [if_pos (by
      simp only [List.length_append, List.length_replicate]
      push_cast
      push_cast at hneg
      omega)]
  · intro h0 hbig
    unfold applyStep
    dsimp only
    rw [hget]
    dsimp only
    rw [hlook]
    simp only [if_neg hlayne]
    rw [if_neg hdiff]
    try dsimp only
    rw [if_neg (by
      simp only [List.length_append, List.length_replicate]
      push_cast
      push_cast at h0
      omega)]
    rw [if_pos (by
      simp only [List.length_append, List.length_replicate]
      push_cast
      push_cast at hbig
      omega)]
  · intro h0 hle
    unfold applyStep
    dsimp only
    rw [hget]
    dsimp only
    rw [hlook]
    simp only [if_neg hlayne]
    rw [if_neg hdiff]
    try dsimp only
    rw [if_neg (by
      simp only [List.length_append, List.length_replicate]
      push_cast
      push_cast at h0
      omega)]
    rw [if_neg (by
      simp only [List.length_append, List.length_replicate]
      push_cast
      push_cast at hle
      omega)]
    simp only [List.length_append, List.length_replicate]
    have hlen1 : e.table_offset + 4 ≤
        ((buf ++ List.replicate ((4 - buf.length % 4) % 4) 0 ++
          payload).length : Int) := by
      simp only [List.length_append, List.length_replicate]
      push_cast
      omega
    have hp1 : packU32 (buf ++ List.replicate ((4 - buf.length % 4) % 4) 0 ++
        payload) e.table_offset
        (((buf.length + (4 - buf.length % 4) % 4 : Nat) : Int) -
          e.offset_anchor) =
        .ok (writeU32 (buf ++ List.replicate ((4 - buf.length % 4) % 4) 0 ++
          payload) e.table_offset.toNat
          ((((buf.length + (4 - buf.length % 4) % 4 : Nat) : Int) -
            e.offset_anchor)).toNat) :=
      packU32_ok _ _ _ ⟨htbl0, hlen1, h0, by omega⟩
    rw [hp1, except_bind_ok]
    have hp2 : packU32 (writeU32 (buf ++
        List.replicate ((4 - buf.length % 4) % 4) 0 ++ payload)
        e.table_offset.toNat
        ((((buf.length + (4 - buf.length % 4) % 4 : Nat) : Int) -
          e.offset_anchor)).toNat) (e.table_offset + 4)
        (payload.length : Int) =
        .ok (writeU32 (writeU32 (buf ++
          List.replicate ((4 - buf.length % 4) % 4) 0 ++ payload)
          e.table_offset.toNat
          ((((buf.length + (4 - buf.length % 4) % 4 : Nat) : Int) -
            e.offset_anchor)).toNat) (e.table_offset + 4).toNat
          ((payload.length : Int)).toNat) :=
      packU32_ok _ _ _ ⟨by omega, (by
        rw [length_writeU32]
        simp only [List.length_append, List.length_replicate]
        push_cast
        omega), by omega, hplen⟩
    rw [hp2, except_bind_ok]
    have hp3 : packU32 (writeU32 (writeU32 (buf ++
        List.replicate ((4 - buf.length % 4) % 4) 0 ++ payload)
        e.table_offset.toNat
        ((((buf.length + (4 - buf.length % 4) % 4 : Nat) : Int) -
          e.offset_anchor)).toNat) (e.table_offset + 4).toNat
        ((payload.length : Int)).toNat) (e.table_offset + 8) e.unk =
        .ok (writeU32 (writeU32 (writeU32 (buf ++
          List.replicate ((4 - buf.length % 4) % 4) 0 ++ payload)
          e.table_offset.toNat
          ((((buf.length + (4 - buf.length % 4) % 4 : Nat) : Int) -
            e.offset_anchor)).toNat) (e.table_offset + 4).toNat
          ((payload.length : Int)).toNat) (e.table_offset + 8).toNat
          e.unk.toNat) :=
      packU32_ok _ _ _ ⟨by omega, (by
        rw [length_writeU32, length_writeU32]
        simp only [List.length_append, List.length_replicate]
        push_cast
        omega), hunk0, hunklt⟩
    rw [hp3, except_bind_ok]
    refine ⟨_, rfl, ?_, ?_, ?_, ?_, ?_, ?_⟩
    · simp only [length_writeU32, List.length_append, List.length_replicate]
      try omega
    · omega
    · intro k hk
      rw [getByte_writeU32_outside _ _ _ _ (Or.inr (by omega)),
        getByte_writeU32_outside _ _ _ _ (Or.inr (by omega)),
        getByte_writeU32_outside _ _ _ _ (Or.inr (by omega))]
      rw [show buf ++ List.replicate ((4 - buf.length % 4) % 4) 0 ++ payload =
        buf ++ (List.replicate ((4 - buf.length % 4) % 4) 0 ++ payload) by
          simp [List.append_assoc]]
      rw [getByte_append_right]
      rw [getByte_append_left _ _ _ (by simp [List.length_replicate]; omega)]
      simp [getByte, List.getD_eq_getElem?_getD, List.getElem?_replicate, hk]
    · rw [sliceBytes_writeU32_before _ _ _ _ _ (by omega),
        sliceBytes_writeU32_before _ _ _ _ _ (by omega),
        sliceBytes_writeU32_before _ _ _ _ _ (by omega)]
      unfold sliceBytes
      rw [List.drop_left' (by simp [List.length_append,
        List.length_replicate])]
      exact List.take_length payload
    · rw [readU32_writeU32_disjoint _ _ _ _ (Or.inr (by omega)),
        readU32_writeU32_disjoint _ _ _ _ (Or.inr (by omega)),
        readU32_writeU32 _ _ _ (by
          simp only [List.length_append, List.length_replicate]
          omega)]
      omega
    · omega

/-- RSFL entry used by the C4 and C7 witnesses: payload at offset 16,
table record at offset 0, anchor 0. -/
def w4e : Entry :=
  { relative_path := "t", offset := 16, size := 4, layout := .rsfl,
    raw_offset := 16, unk := 3, table_offset := 0, offset_anchor := 0 }

/-- 22-byte RSFL buffer for the C4 and C7 witnesses. -/
def w4buf : List Nat :=
  u32le 16 ++ u32le 4 ++ u32le 3 ++ [0, 0, 0, 0] ++ [65, 66, 67, 68] ++ [9, 9]

/-- Witness for `C4_rsfl_grow_replacement`: growing the 4-byte payload to 5
bytes pads the 22-byte buffer to 24 and appends, with `raw_offset = 24`. -/
theorem C4_rsfl_grow_replacement_witness :
    ∃ bufOut,
      applyStep [("t", [80, 81, 82, 83, 84])] (w4buf, [w4e]) 0 =
        .ok (bufOut, [w4e].set 0
          { w4e with offset := 24, size := 5, raw_offset := 24 }) ∧
      sliceBytes bufOut 24 5 = [80, 81, 82, 83, 84] := by
  obtain ⟨b, h1, h2, h3, h4, h5, h6, h7⟩ :=
    (C4_rsfl_grow_replacement [("t", [80, 81, 82, 83, 84])] w4buf [w4e] 0 w4e
      [80, 81, 82, 83, 84] rfl rfl rfl (by decide) (by decide) (by decide)
      (by decide) (by decide) (by decide)).2.2 (by decide) (by decide)
  norm_num [w4buf, w4e, u32le] at h1 h5
  exact ⟨b, h1, h5⟩

/-- C7: for an RSFL entry whose replacement payload has exactly the old
size, the replacement step overwrites the payload in place: the buffer keeps
its length, the entry keeps its offset, size and `raw_offset`, and the
12-byte table record re-stores the same `raw_offset`. -/
theorem C7_rsfl_same_size_replacement (repl : List (String × List Nat))
    (buf : List Nat) (entries : List Entry) (i : Nat) (e : Entry)
    (payload : List Nat)
    (hget : entries.get? i = some e)
    (hlook : lookupReplacement repl e.relative_path = some payload)
    (hlay : e.layout = .rsfl)
    (hsame : (payload.length : Int) = e.size)
    (hanchor : e.offset_anchor + e.raw_offset = e.offset)
    (hraw0 : 0 ≤ e.raw_offset) (hrawlt : e.raw_offset ≤ 4294967295)
    (hbound : e.offset + e.size ≤ (buf.length : Int))
    (htbl0 : 0 ≤ e.table_offset) (htblpay : e.table_offset + 12 ≤ e.offset)
    (hunk0 : 0 ≤ e.unk) (hunklt : e.unk < 4294967296)
    (hplen : (payload.length : Int) < 4294967296) :
    ∃ bufOut,
      applyStep repl (buf, entries) i = .ok (bufOut, entries.set i e) ∧
      bufOut.length = buf.length ∧
      sliceBytes bufOut e.offset.toNat payload.length = payload ∧
      readU32 bufOut e.table_offset.toNat = e.raw_offset.toNat := by
  have hlayne : ¬ e.layout = Layout.rscf := by
    rw [hlay]
    decide
  have hsplice := length_splice buf e.offset.toNat (e.offset + e.size).toNat
    payload (by omega) (by omega)
  have hpleneq : (payload.length : Int) = e.size := hsame
  have hp1 : packU32 (splice buf e.offset.toNat (e.offset + e.size).toNat
      payload) e.table_offset (e.offset - e.offset_anchor) =
      .ok (writeU32 (splice buf e.offset.toNat (e.offset + e.size).toNat
        payload) e.table_offset.toNat (e.offset - e.offset_anchor).toNat) :=
    packU32_ok _ _ _ ⟨htbl0, (by rw [hsplice]; omega), (by omega),
      (by omega)⟩
  have hp2 : packU32 (writeU32 (splice buf e.offset.toNat
      (e.offset + e.size).toNat payload) e.table_offset.toNat
      (e.offset - e.offset_anchor).toNat) (e.table_offset + 4)
      (payload.length : Int) =
      .ok (writeU32 (writeU32 (splice buf e.offset.toNat
        (e.offset + e.size).toNat payload) e.table_offset.toNat
        (e.offset - e.offset_anchor).toNat) (e.table_offset + 4).toNat
        ((payload.length : Int)).toNat) :=
    packU32_ok _ _ _ ⟨(by omega), (by rw [length_writeU32, hsplice]; omega),
      (by omega), hplen⟩
  have hp3 : packU32 (writeU32 (writeU32 (splice buf e.offset.toNat
      (e.offset + e.size).toNat payload) e.table_offset.toNat
      (e.offset - e.offset_anchor).toNat) (e.table_offset + 4).toNat
      ((payload.length : Int)).toNat) (e.table_offset + 8) e.unk =
      .ok (writeU32 (writeU32 (writeU32 (splice buf e.offset.toNat
        (e.offset + e.size).toNat payload) e.table_offset.toNat
        (e.offset - e.offset_anchor).toNat) (e.table_offset + 4).toNat
        ((payload.length : Int)).toNat) (e.table_offset + 8).toNat
        e.unk.toNat) :=
    packU32_ok _ _ _ ⟨(by omega),
      (by rw [length_writeU32, length_writeU32, hsplice]; omega),
      hunk0, hunklt⟩
  have hrecord :
      ({ e with
          offset := e.offset,
          size := (payload.length : Int),
          raw_offset := e.offset - e.offset_anchor } : Entry) = e := by
    rw [hsame, show e.offset - e.offset_anchor = e.raw_offset by omega]
  unfold applyStep
  dsimp only
  rw [hget]
  dsimp only
  rw [hlook]
  simp only [if_neg hlayne]
  rw [if_pos hsame]
  try dsimp only
  rw [if_neg (by omega : ¬ e.offset - e.offset_anchor < 0)]
  rw [if_neg (by omega : ¬ e.offset - e.offset_anchor > 4294967295)]
  rw [hp1, except_bind_ok, hp2, except_bind_ok, hp3, except_bind_ok]
  rw [hrecord]
  refine ⟨_, rfl, ?_, ?_, ?_⟩
  · rw [length_writeU32, length_writeU32, length_writeU32, hsplice]
    omega
  · rw [sliceBytes_writeU32_before _ _ _ _ _ (by omega),
      sliceBytes_writeU32_before _ _ _ _ _ (by omega),
      sliceBytes_writeU32_before _ _ _ _ _ (by omega)]
    exact sliceBytes_splice buf e.offset.toNat (e.offset + e.size).toNat
      payload (by omega)
  · rw [readU32_writeU32_disjoint _ _ _ _ (Or.inr (by omega)),
      readU32_writeU32_disjoint _ _ _ _ (Or.inr (by omega)),
      readU32_writeU32 _ _ _ (by rw [hsplice]; omega)]
    omega

/-- Witness for `C7_rsfl_same_size_replacement`: replacing the 4-byte
payload with another 4-byte payload leaves length, entry and table intact. -/
theorem C7_rsfl_same_size_replacement_witness :
    ∃ bufOut,
      applyStep [("t", [80, 81, 82, 83])] (w4buf, [w4e]) 0 =
        .ok (bufOut, [w4e].set 0 w4e) ∧
      bufOut.length = w4buf.length ∧
      sliceBytes bufOut 16 4 = [80, 81, 82, 83] ∧
      readU32 bufOut 0 = 16 := by
  obtain ⟨b, h1, h2, h3, h4⟩ :=
    C7_rsfl_same_size_replacement [("t", [80, 81, 82, 83])] w4buf [w4e] 0 w4e
      [80, 81, 82, 83] rfl rfl rfl (by decide) (by decide) (by decide)
      (by decide) (by decide) (by decide) (by decide) (by decide) (by decide)
      (by decide)
  norm_num [w4e] at h3 h4
  exact ⟨b, h1, h2, h3, h4⟩

/-! ### C9 — offset/size invariant -/

/-- Well-formedness of a loaded archive model, as established by
`load_archive`: a homogeneous layout, every entry within the buffer, RSFL
table records before their payloads, RSCF entries inside their own chunks,
and RSCF chunks pairwise disjoint with distinct offsets. -/
structure WF (buf : List Nat) (entries : List Entry) : Prop where
  layouts : (∀ x ∈ entries, x.layout = .rsfl) ∨ (∀ x ∈ entries, x.layout = .rscf)
  bound : ∀ x ∈ entries, 0 ≤ x.offset ∧ 0 ≤ x.size ∧
    x.offset + x.size ≤ (buf.length : Int)
  rsflMeta : ∀ x ∈ entries, x.layout = .rsfl →
    0 ≤ x.table_offset ∧ x.table_offset + 12 ≤ x.offset ∧
    0 ≤ x.unk ∧ x.unk < 4294967296
  rscfMeta : ∀ x ∈ entries, x.layout = .rscf →
    ∃ c h, x.chunk_offset = some c ∧ x.header_offset = some h ∧
      0 ≤ c ∧ c ≤ h ∧ h + 12 ≤ x.offset ∧
      x.offset + x.size ≤ c + x.chunk_size ∧
      c + x.chunk_size ≤ (buf.length : Int)
  disj : ∀ i j, i ≠ j → ∀ d f cd cf, entries.get? i = some d →
    entries.get? j = some f → d.chunk_offset = some cd →
    f.chunk_offset = some cf → cd ≠ cf ∧ (cd < cf → cd + d.chunk_size ≤ cf)

theorem packU32_ok_inv {l : List Nat} {off v : Int} {w : List Nat}
    (h : packU32 l off v = .ok w) :
    (0 ≤ off ∧ off + 4 ≤ (l.length : Int) ∧ 0 ≤ v ∧ v < 4294967296) ∧
      w = writeU32 l off.toNat v.toNat := by
  unfold packU32 at h
  by_cases hc : 0 ≤ off ∧ off + 4 ≤ (l.length : Int) ∧ 0 ≤ v ∧ v < 4294967296
  · rw [if_pos hc] at h
    exact ⟨hc, (Except.ok.injEq _ _).mp h |>.symm⟩
  · rw [if_neg hc] at h
    exact absurd h (by simp)

theorem except_bind_ok_inv {α β : Type} {x : Except String α}
    {f : α → Except String β} {b : β} (h : x >>= f = .ok b) :
    ∃ a, x = .ok a ∧ f a = .ok b := by
  cases x with
  | error e =>
    rw [show (Except.error e : Except String α) >>= f =
      Except.error e from rfl] at h
    exact absurd h (by simp)
  | ok a => exact ⟨a, rfl, h⟩

theorem shiftAfter_layout (c δ : Int) (o : Entry) :
    (shiftAfter c δ o).layout = o.layout := by
  unfold shiftAfter
  by_cases h1 : o.layout ≠ .rscf
  · rw [if_pos h1]
  · rw [if_neg h1]
    cases o.chunk_offset with
    | none => rfl
    | some oc =>
      dsimp only
      by_cases h2 : oc ≤ c
      · rw [if_pos h2]
      · rw [if_neg h2]

theorem shiftAfter_rscf (c δ : Int) (o : Entry) (oc : Int)
    (hol : o.layout = .rscf) (hoc : o.chunk_offset = some oc) :
    shiftAfter c δ o = if oc ≤ c then o else
      { o with
          chunk_offset := some (oc + δ),
          offset := o.offset + δ,
          offset_anchor := o.offset_anchor + δ,
          header_offset := o.header_offset.map (fun x => x + δ) } := by
  unfold shiftAfter
  rw [if_neg (by simp [hol]), hoc]

/-- `shiftAfter` never changes an entry's `chunk_size`. -/
theorem shiftAfter_chunk_size (c δ : Int) (o : Entry) :
    (shiftAfter c δ o).chunk_size = o.chunk_size := by
  unfold shiftAfter
  by_cases h : o.layout ≠ Layout.rscf
  · rw [if_pos h]
  · rw [if_neg h]
    cases hco : o.chunk_offset with
    | none => rfl
    | some oc =>
      dsimp only
      by_cases h2 : oc ≤ c
      · rw [if_pos h2]
      · rw [if_neg h2]

set_option maxHeartbeats 1600000 in
/-- `applyStep` preserves archive-model well-formedness whenever it
succeeds. -/
theorem applyStep_preserves_WF (repl : List (String × List Nat))
    (buf : List Nat) (entries : List Entry) (i : Nat)
    (st' : List Nat × List Entry) (hwf : WF buf entries)
    (h : applyStep repl (buf, entries) i = .ok st') :
    WF st'.1 st'.2 := by
  unfold applyStep at h
  dsimp only at h
  cases hget : entries.get? i with
  | none =>
    rw [hget] at h
    try dsimp only at h
    obtain rfl : (buf, entries) = st' := Except.ok.inj h
    exact hwf
  | some e =>
  rw [hget] at h
  dsimp only at h
  cases hlook : lookupReplacement repl e.relative_path with
  | none =>
    rw [hlook] at h
    try dsimp only at h
    obtain rfl : (buf, entries) = st' := Except.ok.inj h
    exact hwf
  | some payload =>
  rw [hlook] at h
  dsimp only at h
  have hmem : e ∈ entries := List.get?_mem hget
  have hilt : i < entries.length := (List.get?_eq_some.mp hget).1
  obtain ⟨he0, hes0, hebd⟩ := hwf.bound e hmem
  by_cases hlay : e.layout = .rscf
  · -- RSCF path
    rw [if_pos hlay] at h
    have hall : ∀ x ∈ entries, x.layout = .rscf := by
      cases hwf.layouts with
      | inl hfl =>
        have := hfl e hmem
        rw [hlay] at this
        exact absurd this (by decide)
      | inr hcf => exact hcf
    obtain ⟨c, hh, hcsome, hhsome, hc0, hch, hhoff, hinchunk, hchunkbd⟩ :=
      hwf.rscfMeta e hmem hlay
    rw [hcsome, hhsome] at h
    try dsimp only at h
    obtain ⟨buf2, hp1, h⟩ := except_bind_ok_inv h
    obtain ⟨⟨hp1a, hp1b, hp1c, hp1d⟩, rfl⟩ := packU32_ok_inv hp1
    try dsimp only at h
    have hsplice := length_splice buf e.offset.toNat
      (e.offset + e.size).toNat payload (by omega) (by omega)
    have hlen1 : ((splice buf e.offset.toNat (e.offset + e.size).toNat
        payload).length : Int) =
        (buf.length : Int) + ((payload.length : Int) - e.size) := by
      rw [hsplice]
      push_cast
      omega
    by_cases hdelta : (payload.length : Int) - e.size ≠ 0
    · rw [if_pos hdelta] at h
      try dsimp only at h
      by_cases hneg : e.chunk_size + ((payload.length : Int) - e.size) ≤ 0
      · rw [if_pos hneg] at h
        exact absurd h (by simp)
      · rw [if_neg hneg] at h
        obtain ⟨buf3, hp2, h⟩ := except_bind_ok_inv h
        obtain ⟨⟨hp2a, hp2b, hp2c, hp2d⟩, rfl⟩ := packU32_ok_inv hp2
        try dsimp only at h
        obtain rfl : _ = st' := Except.ok.inj h
        dsimp only
        -- the mutated entry and the final buffer
        set δ : Int := (payload.length : Int) - e.size with hδ
        set e2 : Entry :=
          { e with
              offset := e.offset,
              size := (payload.length : Int),
              chunk_offset := some c,
              chunk_size := e.chunk_size + δ,
              header_offset := some hh,
              header_data_span := (payload.length : Int) } with he2
        have hlenB : ((writeU32 (writeU32 (splice buf e.offset.toNat
            (e.offset + e.size).toNat payload) (hh + 8).toNat
            ((payload.length : Int)).toNat) (c + 4).toNat
            (e.chunk_size + δ).toNat).length : Int) =
            (buf.length : Int) + δ := by
          rw [length_writeU32, length_writeU32]
          exact hlen1
        -- characterize membership in the updated entry list
        have hget2 : ∀ j x,
            ((entries.set i e2).mapIdx
              (fun j o => if j = i then o else shiftAfter c δ o)).get? j =
              some x →
            (j = i ∧ x = e2) ∨
            (j ≠ i ∧ ∃ y, entries.get? j = some y ∧ x = shiftAfter c δ y) := by
          intro j x hx
          rw [get?_mapIdx] at hx
          by_cases hji : j = i
          · subst hji
            rw [List.get?_set_eq_of_lt _ (by simpa using hilt)] at hx
            simp at hx
            exact Or.inl ⟨rfl, hx.symm⟩
          · rw [List.get?_set_ne _ _ (Ne.symm hji)] at hx
            cases hy : entries.get? j with
            | none => rw [hy] at hx; exact absurd hx (by simp)
            | some y =>
              rw [hy] at hx
              rw [option_map_some] at hx
              rw [if_neg hji] at hx
              simp at hx
              exact Or.inr ⟨hji, y, rfl, hx.symm⟩
        -- facts about any other entry
        have hother : ∀ j y, j ≠ i → entries.get? j = some y →
            ∃ oc, y.chunk_offset = some oc ∧ y.layout = .rscf ∧
              oc ≠ c ∧ (oc < c → oc + y.chunk_size ≤ c) ∧
              (c < oc → c + e.chunk_size ≤ oc) := by
          intro j y hji hy
          have hymem : y ∈ entries := List.get?_mem hy
          have hylay := hall y hymem
          obtain ⟨oc, oh, hocsome, _, _, _, _, _, _⟩ :=
            hwf.rscfMeta y hymem hylay
          obtain ⟨hne1, hlt1⟩ := hwf.disj j i hji y e oc c hy hget hocsome
            hcsome
          obtain ⟨_, hlt2⟩ := hwf.disj i j (fun hc => hji hc.symm) e y c oc
            hget hy hcsome hocsome
          exact ⟨oc, hocsome, hylay, hne1, hlt1, hlt2⟩
        refine ⟨?_, ?_, ?_, ?_, ?_⟩
        · refine Or.inr ?_
          intro x hx
          obtain ⟨j, hj⟩ := List.mem_iff_get?.mp hx
          rcases hget2 j x hj with ⟨_, rfl⟩ | ⟨hji, y, hy, rfl⟩
          · exact hlay
          · rw [shiftAfter_layout]
            exact hall y (List.get?_mem hy)
        · intro x hx
          obtain ⟨j, hj⟩ := List.mem_iff_get?.mp hx
          rw [hlenB]
          rcases hget2 j x hj with ⟨_, rfl⟩ | ⟨hji, y, hy, rfl⟩
          · refine ⟨he0, by positivity, ?_⟩
            rw [he2]
            dsimp only
            omega
          · obtain ⟨oc, hocsome, hylay, hocne, hoclt, hocgt⟩ :=
              hother j y hji hy
            obtain ⟨hy0, hys0, hybd⟩ := hwf.bound y (List.get?_mem hy)
            obtain ⟨oc2, oh2, hoc2, hoh2, hoc20, hoc2h, hoh2off, hyin,
              hychunkbd⟩ := hwf.rscfMeta y (List.get?_mem hy) hylay
            rw [hocsome] at hoc2
            obtain rfl : oc2 = oc := by
              simpa using hoc2.symm
            rw [shiftAfter_rscf c δ y oc2 hylay hocsome]
            by_cases hlec : oc2 ≤ c
            · rw [if_pos hlec]
              have hocltc : oc2 < c := lt_of_le_of_ne hlec hocne
              have := hoclt hocltc
              exact ⟨hy0, hys0, by omega⟩
            · rw [if_neg hlec]
              dsimp only
              have := hocgt (by omega)
              exact ⟨by omega, hys0, by omega⟩
        · intro x hx hxl
          obtain ⟨j, hj⟩ := List.mem_iff_get?.mp hx
          rcases hget2 j x hj with ⟨_, rfl⟩ | ⟨hji, y, hy, rfl⟩
          · rw [he2] at hxl
            dsimp only at hxl
            rw [hlay] at hxl
            exact absurd hxl (by decide)
          · rw [shiftAfter_layout] at hxl
            rw [hall y (List.get?_mem hy)] at hxl
            exact absurd hxl (by decide)
        · intro x hx hxl
          obtain ⟨j, hj⟩ := List.mem_iff_get?.mp hx
          rw [hlenB]
          rcases hget2 j x hj with ⟨_, rfl⟩ | ⟨hji, y, hy, rfl⟩
          · refine ⟨c, hh, rfl, rfl, hc0, hch, ?_, ?_, ?_⟩
            · show hh + 12 ≤ e.offset
              exact hhoff
            · show e.offset + (payload.length : Int) ≤ c + (e.chunk_size + δ)
              omega
            · show c + (e.chunk_size + δ) ≤ (buf.length : Int) + δ
              omega
          · obtain ⟨oc, hocsome, hylay, hocne, hoclt, hocgt⟩ :=
              hother j y hji hy
            obtain ⟨oc2, oh2, hoc2, hoh2, hoc20, hoc2h, hoh2off, hyin,
              hychunkbd⟩ := hwf.rscfMeta y (List.get?_mem hy) hylay
            rw [hocsome] at hoc2
            obtain rfl : oc2 = oc := by
              simpa using hoc2.symm
            obtain ⟨hy0, hys0, hybd⟩ := hwf.bound y (List.get?_mem hy)
            rw [shiftAfter_rscf c δ y oc2 hylay hocsome]
            by_cases hlec : oc2 ≤ c
            · rw [if_pos hlec]
              have hocltc : oc2 < c := lt_of_le_of_ne hlec hocne
              have := hoclt hocltc
              exact ⟨oc2, oh2, hocsome, hoh2, hoc20, hoc2h, hoh2off, hyin,
                by omega⟩
            · rw [if_neg hlec]
              have := hocgt (by omega)
              refine ⟨oc2 + δ, oh2 + δ, rfl, ?_, ?_, ?_, ?_, ?_, ?_⟩ <;>
                try dsimp only
              · simp [hoh2]
              · omega
              · omega
              · omega
              · omega
              · omega
        · intro i' j' hij d f cd cf hd hf hcd hcf
          rcases hget2 i' d hd with ⟨rfl, rfl⟩ | ⟨hii, y, hy, rfl⟩ <;>
            rcases hget2 j' f hf with ⟨rfl, rfl⟩ | ⟨hjj, z, hz, rfl⟩
          · exact absurd rfl hij
          · -- d = e2 (at i), f shifted from z
            obtain ⟨oc, hocsome, hzlay, hocne, hoclt, hocgt⟩ :=
              hother j' z hjj hz
            rw [he2] at hcd
            dsimp only at hcd
            obtain rfl : c = cd := by simpa using hcd
            rw [shiftAfter_rscf c δ z oc hzlay hocsome] at hcf
            by_cases hlec : oc ≤ c
            · rw [if_pos hlec] at hcf
              rw [hocsome] at hcf
              obtain rfl : oc = cf := by simpa using hcf
              have hocltc : oc < c := lt_of_le_of_ne hlec hocne
              exact ⟨by omega, by omega⟩
            · rw [if_neg hlec] at hcf
              dsimp only at hcf
              obtain rfl : cf = oc + δ := by simpa using hcf.symm
              have := hocgt (by omega)
              rw [he2]
              dsimp only
              exact ⟨by omega, by omega⟩
          · -- d shifted from y, f = e2
            obtain ⟨oc, hocsome, hylay, hocne, hoclt, hocgt⟩ :=
              hother i' y hii hy
            rw [shiftAfter_chunk_size]
            rw [he2] at hcf
            dsimp only at hcf
            obtain rfl : c = cf := by simpa using hcf
            rw [shiftAfter_rscf c δ y oc hylay hocsome] at hcd
            by_cases hlec : oc ≤ c
            · rw [if_pos hlec] at hcd
              rw [hocsome] at hcd
              obtain rfl : oc = cd := by simpa using hcd
              have hocltc : oc < c := lt_of_le_of_ne hlec hocne
              have := hoclt hocltc
              exact ⟨by omega, by omega⟩
            · rw [if_neg hlec] at hcd
              dsimp only at hcd
              obtain rfl : cd = oc + δ := by simpa using hcd.symm
              have := hocgt (by omega)
              exact ⟨by omega, by omega⟩
          · -- both shifted
            obtain ⟨oc, hocsome, hylay, hocne, hoclt, hocgt⟩ :=
              hother i' y hii hy
            obtain ⟨oz, hozsome, hzlay, hozne, hozlt, hozgt⟩ :=
              hother j' z hjj hz
            have horig := hwf.disj i' j' hij y z oc oz hy hz hocsome hozsome
            rw [shiftAfter_chunk_size]
            rw [shiftAfter_rscf c δ y oc hylay hocsome] at hcd
            rw [shiftAfter_rscf c δ z oz hzlay hozsome] at hcf
            by_cases hly : oc ≤ c <;> by_cases hlz : oz ≤ c
            · rw [if_pos hly] at hcd
              rw [if_pos hlz] at hcf
              rw [hocsome] at hcd
              rw [hozsome] at hcf
              obtain rfl : cd = oc := by simpa using hcd.symm
              obtain rfl : cf = oz := by simpa using hcf.symm
              exact horig
            · rw [if_pos hly] at hcd
              rw [if_neg hlz] at hcf
              dsimp only at hcf
              rw [hocsome] at hcd
              obtain rfl : cd = oc := by simpa using hcd.symm
              obtain rfl : cf = oz + δ := by simpa using hcf.symm
              have h1 := hoclt (lt_of_le_of_ne hly hocne)
              have h2 := hozgt (by omega)
              exact ⟨by omega, by omega⟩
            · rw [if_neg hly] at hcd
              rw [if_pos hlz] at hcf
              dsimp only at hcd
              rw [hozsome] at hcf
              obtain rfl : cd = oc + δ := by simpa using hcd.symm
              obtain rfl : cf = oz := by simpa using hcf.symm
              have h1 := hocgt (by omega)
              have h2 := hozlt (lt_of_le_of_ne hlz hozne)
              refine ⟨by omega, ?_⟩
              intro hlt
              exfalso
              omega
            · rw [if_neg hly] at hcd
              rw [if_neg hlz] at hcf
              dsimp only at hcd hcf
              obtain rfl : cd = oc + δ := by simpa using hcd.symm
              obtain rfl : cf = oz + δ := by simpa using hcf.symm
              obtain ⟨hne0, hlt0⟩ := horig
              refine ⟨by omega, ?_⟩
              intro hlt
              have : oc < oz := by omega
              have := hlt0 this
              omega
    · -- δ = 0: in-place RSCF overwrite
      rw [if_neg hdelta] at h
      obtain rfl : _ = st' := Except.ok.inj h
      dsimp only
      have hns : (payload.length : Int) = e.size := by omega
      have hlen2 : ((writeU32 (splice buf e.offset.toNat
          (e.offset + e.size).toNat payload) (hh + 8).toNat
          ((payload.length : Int)).toNat).length : Int) =
          (buf.length : Int) := by
        rw [length_writeU32]
        omega
      have hset : ∀ j x, (entries.set i
          { e with
              offset := e.offset,
              size := (payload.length : Int),
              chunk_offset := some c,
              header_offset := some hh,
              header_data_span := (payload.length : Int) }).get? j = some x →
          (x = { e with
              offset := e.offset,
              size := (payload.length : Int),
              chunk_offset := some c,
              header_offset := some hh,
              header_data_span := (payload.length : Int) }) ∨
            entries.get? j = some x := by
        intro j x hx
        by_cases hji : j = i
        · subst hji
          rw [List.get?_set_eq_of_lt _ (by simpa using hilt)] at hx
          simp at hx
          exact Or.inl hx.symm
        · rw [List.get?_set_ne _ _ (Ne.symm hji)] at hx
          exact Or.inr hx
      refine ⟨?_, ?_, ?_, ?_, ?_⟩
      · refine Or.inr ?_
        intro x hx
        obtain ⟨j, hj⟩ := List.mem_iff_get?.mp hx
        rcases hset j x hj with rfl | hx2
        · exact hlay
        · exact hall x (List.get?_mem hx2)
      · intro x hx
        obtain ⟨j, hj⟩ := List.mem_iff_get?.mp hx
        rw [hlen2]
        rcases hset j x hj with rfl | hx2
        · exact ⟨he0, by positivity, by dsimp only; omega⟩
        · exact hwf.bound x (List.get?_mem hx2)
      · intro x hx hxl
        obtain ⟨j, hj⟩ := List.mem_iff_get?.mp hx
        rcases hset j x hj with rfl | hx2
        · dsimp only at hxl
          rw [hlay] at hxl
          exact absurd hxl (by decide)
        · rw [hall x (List.get?_mem hx2)] at hxl
          exact absurd hxl (by decide)
      · intro x hx hxl
        obtain ⟨j, hj⟩ := List.mem_iff_get?.mp hx
        rw [hlen2]
        rcases hset j x hj with rfl | hx2
        · exact ⟨c, hh, rfl, rfl, hc0, hch, hhoff, by dsimp only; omega,
            hchunkbd⟩
        · exact hwf.rscfMeta x (List.get?_mem hx2) (hall x
            (List.get?_mem hx2))
      · intro i' j' hij d f cd cf hd hf hcd hcf
        have hmap : ∀ k w, (entries.set i
            { e with
                offset := e.offset,
                size := (payload.length : Int),
                chunk_offset := some c,
                header_offset := some hh,
                header_data_span := (payload.length : Int) }).get? k =
              some w →
            ∃ w0, entries.get? k = some w0 ∧ w.chunk_offset = w0.chunk_offset ∧
              w.chunk_size = w0.chunk_size := by
          intro k w hw
          by_cases hki : k = i
          · subst hki
            rw [List.get?_set_eq_of_lt _ (by simpa using hilt)] at hw
            simp at hw
            exact ⟨e, hget, by rw [← hw, hcsome], by rw [← hw]⟩
          · rw [List.get?_set_ne _ _ (Ne.symm hki)] at hw
            exact ⟨w, hw, rfl, rfl⟩
        obtain ⟨d0, hd0, hdc, hds⟩ := hmap i' d hd
        obtain ⟨f0, hf0, hfc, hfs⟩ := hmap j' f hf
        rw [hdc] at hcd
        rw [hfc] at hcf
        have := hwf.disj i' j' hij d0 f0 cd cf hd0 hf0 hcd hcf
        rw [hds]
        exact this
  · -- RSFL path
    rw [if_neg hlay] at h
    have hall : ∀ x ∈ entries, x.layout = .rsfl := by
      cases hwf.layouts with
      | inl hfl => exact hfl
      | inr hcf => exact absurd (hcf e hmem) hlay
    obtain ⟨ht0, htoff, hunk0, hunklt⟩ := hwf.rsflMeta e hmem (hall e hmem)
    have hset : ∀ (e1 : Entry), e1.layout = e.layout →
        e1.chunk_offset = e.chunk_offset → e1.chunk_size = e.chunk_size →
        ∀ newbuf : List Nat, (buf.length : Int) ≤ (newbuf.length : Int) →
        (0 ≤ e1.offset ∧ 0 ≤ e1.size ∧
          e1.offset + e1.size ≤ (newbuf.length : Int)) →
        (0 ≤ e1.table_offset ∧ e1.table_offset + 12 ≤ e1.offset ∧
          0 ≤ e1.unk ∧ e1.unk < 4294967296) →
        WF newbuf (entries.set i e1) := by
      intro e1 hl1 hco1 hcs1 newbuf hgrow hbd1 hmeta1
      have hmap : ∀ k w, (entries.set i e1).get? k = some w →
          w = e1 ∨ entries.get? k = some w := by
        intro k w hw
        by_cases hki : k = i
        · subst hki
          rw [List.get?_set_eq_of_lt _ (by simpa using hilt)] at hw
          simp at hw
          exact Or.inl hw.symm
        · rw [List.get?_set_ne _ _ (Ne.symm hki)] at hw
          exact Or.inr hw
      have hmap2 : ∀ k w, (entries.set i e1).get? k = some w →
          ∃ w0, entries.get? k = some w0 ∧ w.chunk_offset = w0.chunk_offset ∧
            w.chunk_size = w0.chunk_size := by
        intro k w hw
        by_cases hki : k = i
        · subst hki
          rw [List.get?_set_eq_of_lt _ (by simpa using hilt)] at hw
          simp at hw
          exact ⟨e, hget, by rw [← hw, hco1], by rw [← hw, hcs1]⟩
        · rw [List.get?_set_ne _ _ (Ne.symm hki)] at hw
          exact ⟨w, hw, rfl, rfl⟩
      refine ⟨?_, ?_, ?_, ?_, ?_⟩
      · refine Or.inl ?_
        intro x hx
        obtain ⟨j, hj⟩ := List.mem_iff_get?.mp hx
        rcases hmap j x hj with rfl | hx2
        · rw [hl1]
          exact hall e hmem
        · exact hall x (List.get?_mem hx2)
      · intro x hx
        obtain ⟨j, hj⟩ := List.mem_iff_get?.mp hx
        rcases hmap j x hj with rfl | hx2
        · exact hbd1
        · obtain ⟨h1, h2, h3⟩ := hwf.bound x (List.get?_mem hx2)
          exact ⟨h1, h2, by omega⟩
      · intro x hx hxl
        obtain ⟨j, hj⟩ := List.mem_iff_get?.mp hx
        rcases hmap j x hj with rfl | hx2
        · exact hmeta1
        · exact hwf.rsflMeta x (List.get?_mem hx2) hxl
      · intro x hx hxl
        obtain ⟨j, hj⟩ := List.mem_iff_get?.mp hx
        rcases hmap j x hj with rfl | hx2
        · rw [hl1, hall e hmem] at hxl
          exact absurd hxl (by decide)
        · rw [hall x (List.get?_mem hx2)] at hxl
          exact absurd hxl (by decide)
      · intro i' j' hij d f cd cf hd hf hcd hcf
        obtain ⟨d0, hd0, hdc, hds⟩ := hmap2 i' d hd
        obtain ⟨f0, hf0, hfc, hfs⟩ := hmap2 j' f hf
        rw [hdc] at hcd
        rw [hfc] at hcf
        have := hwf.disj i' j' hij d0 f0 cd cf hd0 hf0 hcd hcf
        rw [hds]
        exact this
    by_cases hsame : (payload.length : Int) = e.size
    · -- same size: in-place overwrite
      rw [if_pos hsame] at h
      try dsimp only at h
      by_cases hneg : e.offset - e.offset_anchor < 0
      · rw [if_pos hneg] at h
        exact absurd h (by simp)
      rw [if_neg hneg] at h
      by_cases hbig : e.offset - e.offset_anchor > 4294967295
      · rw [if_pos hbig] at h
        exact absurd h (by simp)
      rw [if_neg hbig] at h
      obtain ⟨buf2, hq1, h⟩ := except_bind_ok_inv h
      obtain ⟨⟨hq1a, hq1b, hq1c, hq1d⟩, rfl⟩ := packU32_ok_inv hq1
      try dsimp only at h
      obtain ⟨buf3, hq2, h⟩ := except_bind_ok_inv h
      obtain ⟨⟨hq2a, hq2b, hq2c, hq2d⟩, rfl⟩ := packU32_ok_inv hq2
      try dsimp only at h
      obtain ⟨buf4, hq3, h⟩ := except_bind_ok_inv h
      obtain ⟨⟨hq3a, hq3b, hq3c, hq3d⟩, rfl⟩ := packU32_ok_inv hq3
      try dsimp only at h
      obtain rfl : _ = st' := Except.ok.inj h
      dsimp only
      have hsplice := length_splice buf e.offset.toNat
        (e.offset + e.size).toNat payload (by omega) (by omega)
      have hlenB : ((writeU32 (writeU32 (writeU32 (splice buf e.offset.toNat
          (e.offset + e.size).toNat payload) e.table_offset.toNat
          (e.offset - e.offset_anchor).toNat) (e.table_offset + 4).toNat
          ((payload.length : Int)).toNat) (e.table_offset + 8).toNat
          e.unk.toNat).length : Int) = (buf.length : Int) := by
        rw [length_writeU32, length_writeU32, length_writeU32, hsplice]
        push_cast
        omega
      apply hset
      · rfl
      · rfl
      · rfl
      · rw [hlenB]
      · rw [hlenB]
        exact ⟨he0, by positivity, by dsimp only; omega⟩
      · exact ⟨ht0, by dsimp only; omega, hunk0, hunklt⟩
    · -- size change: pad and append
      rw [if_neg hsame] at h
      try dsimp only at h
      by_cases hneg : ((buf ++ List.replicate ((4 - buf.length % 4) % 4)
          0).length : Int) - e.offset_anchor < 0
      · rw [if_pos hneg] at h
        exact absurd h (by simp)
      rw [if_neg hneg] at h
      by_cases hbig : ((buf ++ List.replicate ((4 - buf.length % 4) % 4)
          0).length : Int) - e.offset_anchor > 4294967295
      · rw [if_pos hbig] at h
        exact absurd h (by simp)
      rw [if_neg hbig] at h
      obtain ⟨buf2, hq1, h⟩ := except_bind_ok_inv h
      obtain ⟨⟨hq1a, hq1b, hq1c, hq1d⟩, rfl⟩ := packU32_ok_inv hq1
      try dsimp only at h
      obtain ⟨buf3, hq2, h⟩ := except_bind_ok_inv h
      obtain ⟨⟨hq2a, hq2b, hq2c, hq2d⟩, rfl⟩ := packU32_ok_inv hq2
      try dsimp only at h
      obtain ⟨buf4, hq3, h⟩ := except_bind_ok_inv h
      obtain ⟨⟨hq3a, hq3b, hq3c, hq3d⟩, rfl⟩ := packU32_ok_inv hq3
      try dsimp only at h
      obtain rfl : _ = st' := Except.ok.inj h
      dsimp only
      have hlenB : ((writeU32 (writeU32 (writeU32 ((buf ++
          List.replicate ((4 - buf.length % 4) % 4) 0) ++ payload)
          e.table_offset.toNat (((buf ++ List.replicate
          ((4 - buf.length % 4) % 4) 0).length : Int) -
          e.offset_anchor).toNat) (e.table_offset + 4).toNat
          ((payload.length : Int)).toNat) (e.table_offset + 8).toNat
          e.unk.toNat).length : Int) =
          ((buf ++ List.replicate ((4 - buf.length % 4) % 4) 0).length : Int)
            + (payload.length : Int) := by
        rw [length_writeU32, length_writeU32, length_writeU32]
        simp only [List.length_append]
        push_cast
        ring
      apply hset
      · rfl
      · rfl
      · rfl
      · rw [hlenB]
        simp only [List.length_append, List.length_replicate]
        push_cast
        omega
      · rw [hlenB]
        refine ⟨?_, ?_, ?_⟩
        · dsimp only
          positivity
        · dsimp only
          positivity
        · dsimp only
          omega
      · refine ⟨ht0, ?_, hunk0, hunklt⟩
        dsimp only
        simp only [List.length_append, List.length_replicate]
        push_cast
        omega

/-- A whole fold of `applyStep` over any index list preserves `WF`. -/
theorem foldlM_applyStep_WF (repl : List (String × List Nat)) :
    ∀ (idxs : List Nat) (st st' : List Nat × List Entry),
      WF st.1 st.2 →
      idxs.foldlM (fun s i => applyStep repl s i) st = .ok st' →
      WF st'.1 st'.2 := by
  intro idxs
  induction idxs with
  | nil =>
    intro st st' hwf h
    rw [List.foldlM_nil] at h
    obtain rfl : st = st' := Except.ok.inj h
    exact hwf
  | cons a l ih =>
    intro st st' hwf h
    rw [List.foldlM_cons] at h
    obtain ⟨st1, h1, h2⟩ := except_bind_ok_inv h
    refine ih st1 st' ?_ h2
    cases st with
    | mk b e => exact applyStep_preserves_WF repl b e a st1 hwf h1

/-- `applyReplacements` preserves `WF` whenever it succeeds. -/
theorem applyReplacements_WF (buf : List Nat) (entries : List Entry)
    (repl : List (String × List Nat)) (st' : List Nat × List Entry)
    (hwf : WF buf entries)
    (h : applyReplacements buf entries repl = .ok st') : WF st'.1 st'.2 := by
  unfold applyReplacements at h
  exact foldlM_applyStep_WF repl (List.range entries.length) (buf, entries)
    st' hwf h

/-! ### C9: the offset/size bound invariant -/

/-- Concrete single-entry archive used to instantiate the C9 theorem. -/
def c9e : Entry :=
  { relative_path := "a", offset := 20, size := 4, layout := .rsfl,
    raw_offset := 0, unk := 0, table_offset := 4, offset_anchor := 20 }

def c9buf : List Nat := List.replicate 24 0

def c9repl : List (String × List Nat) := [("a", [1, 2, 3, 4])]

def c9out : List Nat × List Entry :=
  (applyReplacements c9buf [c9e] c9repl).toOption.getD ([], [])

theorem c9wf : WF c9buf [c9e] := by
  refine ⟨Or.inl ?_, ?_, ?_, ?_, ?_⟩
  · intro x hx
    rw [List.mem_singleton] at hx
    subst hx
    rfl
  · intro x hx
    rw [List.mem_singleton] at hx
    subst hx
    refine ⟨by decide, by decide, by decide⟩
  · intro x hx hl
    rw [List.mem_singleton] at hx
    subst hx
    refine ⟨by decide, by decide, by decide, by decide⟩
  · intro x hx hl
    rw [List.mem_singleton] at hx
    subst hx
    exact absurd hl (by decide)
  · intro i j hij d f cd cf hd hf hcd hcf
    have hi : i = 0 := by
      cases i with
      | zero => rfl
      | succ n => simp [List.get?] at hd
    have hj : j = 0 := by
      cases j with
      | zero => rfl
      | succ n => simp [List.get?] at hf
    exact absurd (hi.trans hj.symm) hij

/-- C9: the `offset + size <= len(buffer)` invariant.  (1) Any offset
accepted by `_resolve_entry_offset` satisfies it right after an RSFL load;
(2) any payload offset accepted by the RSCF candidate selection satisfies
it (the candidate test bounds `offset + span` by `data_length` directly);
(3) the invariant - as part of the `WF` well-formedness of the loaded
model - is preserved by a whole `_apply_replacements` batch, for RSFL and
RSCF entries alike. -/
theorem C9_offset_size_invariant :
    (∀ raw size dlen roff rcs off : Int,
        resolve_entry_offset raw size dlen roff rcs = .ok off →
        off + size ≤ dlen) ∧
    (∀ dlen sEnd cEnd : Int, ∀ doff dspan : Nat, ∀ off : Int,
        parse_rscf_payload_offset dlen sEnd cEnd doff dspan = .ok off →
        off + (dspan : Int) ≤ dlen) ∧
    (∀ (buf : List Nat) (entries : List Entry)
        (repl : List (String × List Nat)) (st' : List Nat × List Entry),
        WF buf entries → applyReplacements buf entries repl = .ok st' →
        ∀ x ∈ st'.2, 0 ≤ x.offset ∧ 0 ≤ x.size ∧
          x.offset + x.size ≤ (st'.1.length : Int)) := by
  refine ⟨?_, ?_, ?_⟩
  · intro raw size dlen roff rcs off h
    unfold resolve_entry_offset at h
    dsimp only at h
    by_cases hc : (if raw + rcs + size > dlen then raw + roff
        else raw + rcs) + size > dlen
    · rw [if_pos hc] at h
      exact absurd h (by simp)
    · rw [if_neg hc] at h
      obtain rfl : _ = off := Except.ok.inj h
      omega
  · intro dlen sEnd cEnd doff dspan off h
    unfold parse_rscf_payload_offset at h
    cases hfind : (rscfCandidateOffsets sEnd doff cEnd dspan).find?
        (rscfCandidateOk sEnd cEnd dlen dspan) with
    | none => rw [hfind] at h; exact absurd h (by simp)
    | some cand =>
      rw [hfind] at h
      obtain rfl : cand = off := Except.ok.inj h
      have hok := List.find?_some hfind
      unfold rscfCandidateOk at hok
      simp only [Bool.and_eq_true, decide_eq_true_eq] at hok
      omega
  · intro buf entries repl st' hwf h
    exact (applyReplacements_WF buf entries repl st' hwf h).bound

theorem C9_offset_size_invariant_witness :
    resolve_entry_offset 0 4 40 8 20 = .ok 20 ∧ (20 : Int) + 4 ≤ 40 ∧
    parse_rscf_payload_offset 40 16 36 4 8 = .ok 20 ∧ (20 : Int) + 8 ≤ 40 ∧
    WF c9buf [c9e] ∧ applyReplacements c9buf [c9e] c9repl = .ok c9out ∧
    (∀ x ∈ c9out.2, 0 ≤ x.offset ∧ 0 ≤ x.size ∧
      x.offset + x.size ≤ (c9out.1.length : Int)) :=
  ⟨rfl, C9_offset_size_invariant.1 0 4 40 8 20 20 rfl,
   rfl, C9_offset_size_invariant.2.1 40 16 36 4 8 20 rfl,
   c9wf, rfl,
   C9_offset_size_invariant.2.2 c9buf [c9e] c9repl c9out c9wf rfl⟩

/-! ### C8 and C10: patch-entry selection in `generate_patch_archive` -/

theorem patchKeep_both (filesInfo : List Entry) (ab : List Nat)
    (orig : List Entry) (kv : String × List Nat) (mp : Entry × List Nat) :
    patchKeep filesInfo (some ab) (some orig) kv = some mp ↔
      ∃ me oe, indexByPath filesInfo kv.1 = some me ∧
        indexByPath orig kv.1 = some oe ∧
        kv.2 ≠ sliceBytes ab oe.offset.toNat oe.size.toNat ∧
        mp = (me, kv.2) := by
  unfold patchKeep
  cases hm : indexByPath filesInfo kv.1 with
  | none => simp
  | some me =>
    dsimp only
    cases ho : indexByPath orig kv.1 with
    | none => simp
    | some oe =>
      dsimp only
      by_cases hp : kv.2 = sliceBytes ab oe.offset.toNat oe.size.toNat
      · rw [if_pos hp]
        simp [hp]
      · rw [if_neg hp]
        constructor
        · intro hmp
          exact ⟨me, oe, rfl, rfl, hp, (Option.some.inj hmp).symm⟩
        · rintro ⟨me2, oe2, hme2, hoe2, hne2, rfl⟩
          obtain rfl : me = me2 := Option.some.inj hme2
          rfl

theorem patchKeep_missing (filesInfo : List Entry)
    (ab : Option (List Nat)) (oeO : Option (List Entry))
    (h : ab = none ∨ oeO = none) (kv : String × List Nat) :
    patchKeep filesInfo ab oeO kv =
      (indexByPath filesInfo kv.1).map (fun me => (me, kv.2)) := by
  unfold patchKeep
  cases hm : indexByPath filesInfo kv.1 with
  | none => rfl
  | some me =>
    dsimp only
    rcases h with rfl | rfl
    · cases oeO <;> rfl
    · rfl

theorem generatePatchSelection_error_iff (filesInfo : List Entry)
    (repl : List (String × List Nat)) (ab : Option (List Nat))
    (oeO : Option (List Entry)) :
    (∃ msg, generatePatchSelection filesInfo repl ab oeO = .error msg) ↔
      ∀ kv ∈ repl, patchKeep filesInfo ab oeO kv = none := by
  unfold generatePatchSelection
  dsimp only
  by_cases hn : repl.filterMap (patchKeep filesInfo ab oeO) = []
  · rw [if_pos hn]
    rw [List.filterMap_eq_nil] at hn
    simp only [Except.error.injEq, exists_eq]
    simpa using hn
  · rw [if_neg hn]
    constructor
    · rintro ⟨msg, hmsg⟩
      exact absurd hmsg (by simp)
    · intro hall2
      exact absurd (List.filterMap_eq_nil.mpr hall2) hn

/-- C8: with both the original archive bytes and the original entry list
available, a successful selection contains exactly the replacements whose
payload differs bytewise from the original payload sliced at the recorded
offset/size (restricted to paths present in the manifest and the original
entry index), and the no-modified-files error is raised precisely when no
replacement differs. -/
theorem C8_patch_selection (filesInfo : List Entry)
    (repl : List (String × List Nat)) (ab : List Nat) (orig : List Entry) :
    (∀ sel, generatePatchSelection filesInfo repl (some ab) (some orig) =
        .ok sel →
      (∀ mp ∈ sel, ∃ kv ∈ repl, mp.2 = kv.2 ∧
        indexByPath filesInfo kv.1 = some mp.1 ∧
        ∃ oe, indexByPath orig kv.1 = some oe ∧
          mp.2 ≠ sliceBytes ab oe.offset.toNat oe.size.toNat) ∧
      (∀ kv ∈ repl, ∀ me oe, indexByPath filesInfo kv.1 = some me →
        indexByPath orig kv.1 = some oe →
        kv.2 ≠ sliceBytes ab oe.offset.toNat oe.size.toNat →
        (me, kv.2) ∈ sel)) ∧
    ((∃ msg, generatePatchSelection filesInfo repl (some ab) (some orig) =
        .error msg) ↔
      ∀ kv ∈ repl, ∀ me oe, indexByPath filesInfo kv.1 = some me →
        indexByPath orig kv.1 = some oe →
        kv.2 = sliceBytes ab oe.offset.toNat oe.size.toNat) := by
  constructor
  · intro sel hsel
    unfold generatePatchSelection at hsel
    dsimp only at hsel
    by_cases hn : repl.filterMap (patchKeep filesInfo (some ab)
        (some orig)) = []
    · rw [if_pos hn] at hsel
      exact absurd hsel (by simp)
    · rw [if_neg hn] at hsel
      obtain rfl : _ = sel := Except.ok.inj hsel
      constructor
      · intro mp hmp
        obtain ⟨kv, hkv, hkeep⟩ := List.mem_filterMap.mp hmp
        obtain ⟨me, oe, hme, hoe, hne, rfl⟩ := (patchKeep_both filesInfo ab
          orig kv mp).mp hkeep
        exact ⟨kv, hkv, rfl, hme, oe, hoe, hne⟩
      · intro kv hkv me oe hme hoe hne
        refine List.mem_filterMap.mpr ⟨kv, hkv, ?_⟩
        exact (patchKeep_both filesInfo ab orig kv (me, kv.2)).mpr
          ⟨me, oe, hme, hoe, hne, rfl⟩
  · rw [generatePatchSelection_error_iff]
    constructor
    · intro hnone kv hkv me oe hme hoe
      by_contra hne
      have := (patchKeep_both filesInfo ab orig kv (me, kv.2)).mpr
        ⟨me, oe, hme, hoe, hne, rfl⟩
      rw [hnone kv hkv] at this
      exact absurd this (by simp)
    · intro heq kv hkv
      cases hk : patchKeep filesInfo (some ab) (some orig) kv with
      | none => rfl
      | some mp =>
        obtain ⟨me, oe, hme, hoe, hne, rfl⟩ := (patchKeep_both filesInfo ab
          orig kv mp).mp hk
        exact absurd (heq kv hkv me oe hme hoe) hne

def c8me : Entry :=
  { relative_path := "a", offset := 0, size := 1, layout := .rsfl }

def c8oe : Entry :=
  { relative_path := "a", offset := 0, size := 1, layout := .rsfl }

theorem C8_patch_selection_witness :
    generatePatchSelection [c8me] [("a", [9])] (some [5]) (some [c8oe]) =
      .ok [(c8me, [9])] ∧
    indexByPath [c8me] "a" = some c8me ∧
    indexByPath [c8oe] "a" = some c8oe ∧
    ([9] : List Nat) ≠ sliceBytes [5] c8oe.offset.toNat c8oe.size.toNat ∧
    (c8me, ([9] : List Nat)) ∈ [(c8me, ([9] : List Nat))] :=
  ⟨rfl, rfl, rfl, by decide,
    (C8_patch_selection [c8me] [("a", [9])] [5] [c8oe]).1 [(c8me, [9])] rfl
      |>.2 ("a", [9]) (by simp) c8me c8oe rfl rfl (by decide)⟩

/-- C10: if the original archive bytes or the original entry list is
missing, no byte comparison happens: a successful selection contains
exactly every replacement whose path resolves in the manifest index - even
a byte-identical payload - and the no-modified-files error is raised
precisely when no replacement path is in the manifest index. -/
theorem C10_selection_without_original (filesInfo : List Entry)
    (repl : List (String × List Nat)) (ab : Option (List Nat))
    (oeO : Option (List Entry)) (h : ab = none ∨ oeO = none) :
    (∀ sel, generatePatchSelection filesInfo repl ab oeO = .ok sel →
      (∀ kv ∈ repl, ∀ me, indexByPath filesInfo kv.1 = some me →
        (me, kv.2) ∈ sel) ∧
      (∀ mp ∈ sel, ∃ kv ∈ repl, indexByPath filesInfo kv.1 = some mp.1 ∧
        mp.2 = kv.2)) ∧
    ((∃ msg, generatePatchSelection filesInfo repl ab oeO = .error msg) ↔
      ∀ kv ∈ repl, indexByPath filesInfo kv.1 = none) := by
  constructor
  · intro sel hsel
    unfold generatePatchSelection at hsel
    dsimp only at hsel
    by_cases hn : repl.filterMap (patchKeep filesInfo ab oeO) = []
    · rw [if_pos hn] at hsel
      exact absurd hsel (by simp)
    · rw [if_neg hn] at hsel
      obtain rfl : _ = sel := Except.ok.inj hsel
      constructor
      · intro kv hkv me hme
        refine List.mem_filterMap.mpr ⟨kv, hkv, ?_⟩
        rw [patchKeep_missing filesInfo ab oeO h kv, hme]
        rfl
      · intro mp hmp
        obtain ⟨kv, hkv, hkeep⟩ := List.mem_filterMap.mp hmp
        rw [patchKeep_missing filesInfo ab oeO h kv] at hkeep
        cases hm : indexByPath filesInfo kv.1 with
        | none => rw [hm] at hkeep; exact absurd hkeep (by simp)
        | some me =>
          rw [hm] at hkeep
          obtain rfl : (me, kv.2) = mp := Option.some.inj hkeep
          exact ⟨kv, hkv, hm, rfl⟩
  · rw [generatePatchSelection_error_iff]
    constructor
    · intro hnone kv hkv
      have := hnone kv hkv
      rw [patchKeep_missing filesInfo ab oeO h kv] at this
      exact Option.map_eq_none.mp this
    · intro hnone kv hkv
      rw [patchKeep_missing filesInfo ab oeO h kv, hnone kv hkv]
      rfl

def c10me : Entry :=
  { relative_path := "b", offset := 0, size := 1, layout := .rsfl }

def c10oe : Entry :=
  { relative_path := "b", offset := 0, size := 1, layout := .rsfl }

theorem C10_selection_without_original_witness :
    generatePatchSelection [c10me] [("b", [5])] none (some [c10oe]) =
      .ok [(c10me, [5])] ∧
    indexByPath [c10me] "b" = some c10me ∧
    (c10me, ([5] : List Nat)) ∈ [(c10me, ([5] : List Nat))] :=
  ⟨rfl, rfl,
    (C10_selection_without_original [c10me] [("b", [5])] none (some [c10oe])
      (Or.inl rfl)).1 [(c10me, [5])] rfl |>.1 ("b", [5]) (by simp) c10me rfl⟩

end RS
